import Mathlib

/-!
# A shallow embedding of the `zest` test runner (`src/zest.hh`)

`zest` is a single-header C++20 testing library.  Tests are registered
into a process-wide `std::map<Str, std::vector<TestCase*>>` keyed by
group name; `Runner::run()` walks the map in key order, honours
skip/only sentinel records at the front of each group's vector, runs
each test's `before()` hook, body and `after()` hook, and aggregates a
fail tally and a skip tally.

The embedding below translates that header into pure Lean:

* `TestCase` is the C++ `struct TestCase` (the mutable per-test record);
  `TestCase.output` and `TestCase.fail` are its member functions.
* `isFn` is the body of the `ZEST_IS_FN(NAME, COMP)` macro; the
  `if constexpr (Printable<LHS> && Printable<RHS>)` compile-time test
  becomes two boolean parameters.  `is_eq_` … `is_le_` are the six
  instantiations, taken at type `Int`.
* `Registry` bundles the static data members of `struct Runner`
  (`groups`, `only_mode`); the `std::map` is a key-sorted association
  list and `upsert` is `groups[g]` (lookup-or-create) followed by an
  update of the vector.
* Test bodies and hooks are arbitrary C++ code; the embedding
  parametrises over them: a body is a list of `BodyAct` (comparator
  calls routed through `isFn`, or a thrown exception), a hook is a list
  of `HookAct` (calls to `TestCase::fail`).
* `Runner.run` returns the trace of observable events (`Ev`: output
  lines, hook/body invocations, writes to the `Runner::current`
  pointer) together with `Except Fault (nfail, nskip, status)`;
  the `.error` case is an exception propagating out of `run()` after
  the `catch (...)` block re-throws it.
  The color-initialisation call (`if (!cOFF) color(autocolor());`)
  only inspects the environment and is not modelled.
-/

deriving instance DecidableEq for Except

namespace Zest

abbrev Str := String

/-- One test's mutable record: C++ `struct TestCase` (minus the `run`
function pointer, which the registry entries carry; see `Entry`). -/
structure TestCase where
  title : Str
  file : Str
  line : Nat
  failed : Nat
  done : Bool
deriving Repr, DecidableEq

/-- One line written to stdout. -/
inductive OutLine where
  /-- `" ✗ <title>"` printed by `output()` when `!done && failed == 1`. -/
  | markFail (title : Str)
  /-- `" ✓ <title>"` printed by `output()` when `done && !failed`. -/
  | markPass (title : Str)
  /-- `"<file>:<line>: FAIL: <body>"` started by `TestCase::fail`. -/
  | failText (file : Str) (line : Nat) (body : Str)
  /-- `"\n[<group>]"` printed at the head of an executed group. -/
  | groupHeader (g : Str)
  /-- The final boxed verdict with the skipped count. -/
  | summary (pass : Bool) (nskip : Nat)
deriving Repr, DecidableEq

/-- `TestCase::output()`: emits the glyph line for this test if it just
failed for the first time, or if it is done with no failures. -/
def TestCase.output (t : TestCase) : List OutLine :=
  if !t.done && t.failed == 1 then [.markFail t.title]
  else if t.done && t.failed == 0 then [.markPass t.title]
  else []

/-- `TestCase::fail(file, line)`: increments `failed`, calls `output()`,
then writes `"<file>:<line>: FAIL: "`; the caller streams `body` onto
the same line.  Returns the updated record and the lines written. -/
def TestCase.fail (t : TestCase) (f : Str) (l : Nat) (body : Str) :
    TestCase × List OutLine :=
  let t' : TestCase := { t with failed := t.failed + 1 }
  (t', t'.output ++ [.failText f l body])

/-- `TestCase::fail(msg)`: `fail(file, line) << msg << (msg.empty() ? "" : "\n")`. -/
def TestCase.failMsg (t : TestCase) (msg : Str) : TestCase × List OutLine :=
  t.fail t.file t.line (if msg.isEmpty then msg else msg ++ "\n")

/-- The body of the `ZEST_IS_FN(NAME, COMP)` macro.  `comp rhs lhs`
is the C++ `(rhs COMP lhs)`; `printableL`/`printableR` decide the
`if constexpr (Printable<LHS> && Printable<RHS>)` branch, with `showL`
and `showR` the `operator<<` renderings.  `current` is `Runner::current`;
an `.error` is a thrown `const char*`. -/
def isFn {L R : Type} (name compSym : Str) (comp : R → L → Bool)
    (printableL printableR : Bool) (showL : L → Str) (showR : R → Str)
    (f : Str) (l : Nat) (lhsStr : Str) (lhs : L) (rhsStr : Str) (rhs : R)
    (current : Option TestCase) : Except Str (TestCase × Bool × List OutLine) :=
  match current with
  | none => .error ("Called is_" ++ name ++ " while no current test")
  | some test =>
    if test.done then .error ("Called is_" ++ name ++ " in finished test")
    else if comp rhs lhs then .ok (test, true, [])
    else
      let base := rhsStr ++ " " ++ compSym ++ " " ++ lhsStr
      let paren :=
        if printableL && printableR then
          "  (" ++ showR rhs ++ " " ++ compSym ++ " " ++ showL lhs ++ ")"
        else ""
      let r := test.fail f l (base ++ paren ++ "\n")
      .ok (r.1, false, r.2)

/-- `is_eq_` instantiated at `Int`. -/
def is_eq_ : Str → Nat → Str → Int → Str → Int → Option TestCase →
    Except Str (TestCase × Bool × List OutLine) :=
  isFn "eq" "==" (fun r l => decide (r = l)) true true toString toString

/-- `is_ne_` instantiated at `Int`. -/
def is_ne_ : Str → Nat → Str → Int → Str → Int → Option TestCase →
    Except Str (TestCase × Bool × List OutLine) :=
  isFn "ne" "!=" (fun r l => decide (¬ r = l)) true true toString toString

/-- `is_gt_` instantiated at `Int`. -/
def is_gt_ : Str → Nat → Str → Int → Str → Int → Option TestCase →
    Except Str (TestCase × Bool × List OutLine) :=
  isFn "gt" ">" (fun r l => decide (r > l)) true true toString toString

/-- `is_lt_` instantiated at `Int`. -/
def is_lt_ : Str → Nat → Str → Int → Str → Int → Option TestCase →
    Except Str (TestCase × Bool × List OutLine) :=
  isFn "lt" "<" (fun r l => decide (r < l)) true true toString toString

/-- `is_ge_` instantiated at `Int`. -/
def is_ge_ : Str → Nat → Str → Int → Str → Int → Option TestCase →
    Except Str (TestCase × Bool × List OutLine) :=
  isFn "ge" ">=" (fun r l => decide (r ≥ l)) true true toString toString

/-- `is_le_` instantiated at `Int`. -/
def is_le_ : Str → Nat → Str → Int → Str → Int → Option TestCase →
    Except Str (TestCase × Bool × List OutLine) :=
  isFn "le" "<=" (fun r l => decide (r ≤ l)) true true toString toString

/-- Identity of a registry entry during a run: the group name together
with the entry's position in the group's vector.  Distinct entries are
distinct C++ objects, so this stands in for the `TestCase*` pointer
value stored into `Runner::current`. -/
abbrev TestId := Str × Nat

/-- An observable event of `Runner::run()`. -/
inductive Ev where
  /-- A line written to stdout. -/
  | out (line : OutLine)
  /-- Invocation of `t->before()` for the entry `id`. -/
  | beforeCall (id : TestId)
  /-- Invocation of `t->run()` (the test body) for the entry `id`. -/
  | bodyCall (id : TestId)
  /-- Invocation of `t->after()` for the entry `id`. -/
  | afterCall (id : TestId)
  /-- A write to the `Runner::current` pointer. -/
  | curSet (v : Option TestId)
deriving Repr, DecidableEq

/-- One step of a test body.  Bodies are arbitrary C++ code; the parts
visible to the runner are comparator-macro invocations (which route
through `ZEST_IS_FN` against `Runner::current`) and thrown exceptions. -/
inductive BodyAct where
  /-- A call of `is_<name>_` (at type `Int`, every `Int` being printable). -/
  | assert (name compSym : Str) (comp : Int → Int → Bool)
      (f : Str) (l : Nat) (lhsStr : Str) (lhs : Int) (rhsStr : Str) (rhs : Int)
  /-- The body throws an exception unrelated to the comparator machinery. -/
  | fault (msg : Str)

/-- One step of a `before()`/`after()` hook override: the documented
hook API is `fail(msg)` on the current record (default hooks do nothing,
i.e. have the empty list of steps). -/
inductive HookAct where
  | failMsg (msg : Str)

/-- Execute a body: comparator calls run `isFn` with `Runner::current`
pointing at this test; a thrown `const char*` from `isFn`, or an
explicit `fault`, stops the body and is reported as `some msg`. -/
def runBody (t : TestCase) : List BodyAct → TestCase × List OutLine × Option Str
  | [] => (t, [], none)
  | .fault m :: _ => (t, [], some m)
  | .assert n sym cmp f l ls lv rs rv :: rest =>
    match isFn n sym cmp true true toString toString f l ls lv rs rv (some t) with
    | .error m => (t, [], some m)
    | .ok (t', _, outs) =>
      let r := runBody t' rest
      (r.1, outs ++ r.2.1, r.2.2)

/-- Execute a hook override: a sequence of `fail(msg)` calls. -/
def runHook (t : TestCase) : List HookAct → TestCase × List OutLine
  | [] => (t, [])
  | .failMsg m :: rest =>
    let r := t.failMsg m
    let r' := runHook r.1 rest
    (r'.1, r.2 ++ r'.2)

/-- The static data of one declared test, as passed to `Runner::add` by
the `ZEST_TEST` macro: title, declaration site, and the behaviour of the
record's (possibly overridden) hooks and of the body. -/
structure TestDef where
  title : Str
  file : Str
  line : Nat
  beforeActs : List HookAct
  body : List BodyAct
  afterActs : List HookAct

/-- The record as freshly registered: `failed = 0`, `done = false`. -/
def TestDef.init (td : TestDef) : TestCase :=
  { title := td.title, file := td.file, line := td.line, failed := 0, done := false }

/-- One element of a group's `std::vector<TestCase*>`.  `skipFlag` and
`onlyFlag` are the addresses of the `Flag::skip` / `Flag::only` sentinel
records (whose `run` pointer is null); `test` is a registered test
(whose `run` pointer is the generated body and hence non-null). -/
inductive Entry where
  | skipFlag
  | onlyFlag
  | test (td : TestDef)

/-- An exception propagating out of `Runner::run()`: which entry threw,
the state of its record at the moment of propagation, and the message. -/
structure Fault where
  group : Str
  index : Nat
  test : TestCase
  msg : Str
deriving Repr, DecidableEq

/-- Execute one test (the loop body of `Runner::run` for entry `(g, i)`):

    current = t; t->before();
    try { t->run(); }
    catch (...) { t->fail("Uncaught exception"); rethrow; }
    t->after(); t->done = true; t->output();
    (the caller then adds `t->failed ? 1 : 0` to `nfail`); current = nullptr;

On the catch path the exception is re-thrown: `after()` never runs,
`done` stays false, and `current` is not reset. -/
def execTest (g : Str) (i : Nat) (td : TestDef) : List Ev × Except Fault TestCase :=
  let t0 := td.init
  let bef := runHook t0 td.beforeActs
  let bod := runBody bef.1 td.body
  let pre := Ev.curSet (some (g, i)) :: Ev.beforeCall (g, i) :: bef.2.map .out
      ++ Ev.bodyCall (g, i) :: bod.2.1.map .out
  match bod.2.2 with
  | some m =>
    let ca := bod.1.failMsg "Uncaught exception"
    (pre ++ ca.2.map .out, .error ⟨g, i, ca.1, m⟩)
  | none =>
    let aft := runHook bod.1 td.afterActs
    let t4 : TestCase := { aft.1 with done := true }
    (pre ++ Ev.afterCall (g, i) :: aft.2.map .out ++ t4.output.map .out
        ++ [Ev.curSet none], .ok t4)

/-- The inner loop of `Runner::run` over one group's vector, starting at
index `i`: entries with a null `run` pointer (the sentinels) are passed
over; each real test executes and contributes `failed ? 1 : 0` to the
group's fail tally.  `.error` aborts the loop (exception propagation). -/
def runTests (g : Str) : Nat → List Entry → List Ev × Except Fault Nat
  | _, [] => ([], .ok 0)
  | i, .skipFlag :: rest => runTests g (i + 1) rest
  | i, .onlyFlag :: rest => runTests g (i + 1) rest
  | i, .test td :: rest =>
    let r := execTest g i td
    match r.2 with
    | .error e => (r.1, .error e)
    | .ok t =>
      let r' := runTests g (i + 1) rest
      match r'.2 with
      | .error e => (r.1 ++ r'.1, .error e)
      | .ok n => (r.1 ++ r'.1, .ok ((if t.failed == 0 then 0 else 1) + n))

/-- The group-skip test of `Runner::run`, applied to `tests[0]`:
`(tests[0] == &Flag::skip) || ((tests[0] != &Flag::only) && only_mode)`. -/
def skipCheck (e : Entry) (onlyMode : Bool) : Bool :=
  match e with
  | .skipFlag => true
  | .onlyFlag => false
  | .test _ => onlyMode

/-- The outer loop of `Runner::run` over the group map (in key order):
a group whose first entry passes `skipCheck` contributes
`tests.size() - 1` to the skip tally and nothing else; otherwise the
group header is printed and the group's tests run.  A group with an
empty vector is unreachable from the registration API, whose group
vectors are always non-empty (`groupsNonempty_applyOps`); its
`tests[0]` access is undefined behaviour in C++, rendered here as
skipping the group with no tally change. -/
def runGroups (onlyMode : Bool) :
    List (Str × List Entry) → List Ev × Except Fault (Nat × Nat)
  | [] => ([], .ok (0, 0))
  | (g, tests) :: rest =>
    match tests with
    | [] => runGroups onlyMode rest
    | t0 :: _ =>
      if skipCheck t0 onlyMode then
        let r := runGroups onlyMode rest
        (r.1, r.2.map fun p => (p.1, (tests.length - 1) + p.2))
      else
        let r1 := runTests g 0 tests
        match r1.2 with
        | .error e => (Ev.out (.groupHeader g) :: r1.1, .error e)
        | .ok nf1 =>
          let r2 := runGroups onlyMode rest
          (Ev.out (.groupHeader g) :: (r1.1 ++ r2.1),
           r2.2.map fun p => (nf1 + p.1, p.2))

/-- The static data members of `struct Runner`. -/
structure Registry where
  groups : List (Str × List Entry)
  only_mode : Bool

/-- The empty registry: state before any static registration ran. -/
def Registry.empty : Registry := ⟨[], false⟩

/-- `groups[g]` on the `std::map` (find-or-create, keeping keys sorted
by `std::string::operator<`, i.e. lexicographically by character)
followed by an update `f` of the group's vector. -/
def upsert (g : Str) (f : List Entry → List Entry) :
    List (Str × List Entry) → List (Str × List Entry)
  | [] => [(g, f [])]
  | (k, v) :: rest =>
    if g.data < k.data then (g, f []) :: (k, v) :: rest
    else if g = k then (k, f v) :: rest
    else (k, v) :: upsert g f rest

namespace Runner

/-- `Runner::add`: fills the record's fields and appends its address to
the named group's vector (`groups[g].push_back(&c)`). -/
def add (reg : Registry) (g : Str) (td : TestDef) : Registry :=
  { reg with groups := upsert g (fun v => v ++ [Entry.test td]) reg.groups }

/-- `Runner::skip`: prepends `&Flag::skip` to the named group's vector. -/
def skip (reg : Registry) (group : Str) : Registry :=
  { reg with groups := upsert group (fun v => Entry.skipFlag :: v) reg.groups }

/-- `Runner::only`: prepends `&Flag::only` and raises `only_mode`. -/
def only (reg : Registry) (group : Str) : Registry :=
  { groups := upsert group (fun v => Entry.onlyFlag :: v) reg.groups,
    only_mode := true }

/-- `Runner::run()`: traverses the groups, prints the summary box, and
returns the exit status `nfail ? 1 : 0` — unless an exception escapes a
test body, in which case it propagates (the `.error` case) with no
summary printed. -/
def run (reg : Registry) : List Ev × Except Fault (Nat × Nat × Nat) :=
  let r := runGroups reg.only_mode reg.groups
  match r.2 with
  | .error e => (r.1, .error e)
  | .ok (nf, ns) =>
    (r.1 ++ [Ev.out (.summary (nf == 0) ns)],
     .ok (nf, ns, if nf == 0 then 0 else 1))

end Runner

/-- A call into the registration API (static-initialisation side effects
of `ZEST_TEST` declarations, and `zest::skip` / `zest::only` calls made
before `zest::run()`). -/
inductive Op where
  | add (g : Str) (td : TestDef)
  | skip (g : Str)
  | only (g : Str)

/-- Apply one registration call. -/
def applyOp (reg : Registry) : Op → Registry
  | .add g td => Runner.add reg g td
  | .skip g => Runner.skip reg g
  | .only g => Runner.only reg g

/-- The registry reached from program start by a list of registration
calls. -/
def applyOps (ops : List Op) : Registry :=
  ops.foldl applyOp Registry.empty

/-- The effect of one event on the `Runner::current` pointer: a
`curSet` overwrites it, everything else leaves it alone. -/
def curStep (c : Option TestId) : Ev → Option TestId
  | .curSet v => v
  | _ => c

/-- The value of `Runner::current` after processing `evs`, starting
from `c`: the last `curSet` write wins. -/
def curFrom (c : Option TestId) (evs : List Ev) : Option TestId :=
  evs.foldl curStep c

/-- The value of `Runner::current` after the trace `evs`, starting from
the initial `nullptr`. -/
def curAfter (evs : List Ev) : Option TestId := curFrom none evs

/-- The entry whose hook or body the event invokes, if any. -/
def Ev.callId : Ev → Option TestId
  | .beforeCall id => some id
  | .bodyCall id => some id
  | .afterCall id => some id
  | _ => none

/-- The failure counter a test's record ends with when its hooks and
body all run to completion (the `.ok` path of `execTest`), computed
directly from the test's definition. -/
def finalFailed (td : TestDef) : Nat :=
  (runHook (runBody (runHook td.init td.beforeActs).1 td.body).1 td.afterActs).1.failed

/-- Whether an executed test ends with a nonzero failure counter. -/
def testFails (td : TestDef) : Bool :=
  finalFailed td != 0

/-- The number of real tests (entries with a non-null body) in a
group's vector. -/
def countTests : List Entry → Nat
  | [] => 0
  | .test _ :: rest => countTests rest + 1
  | _ :: rest => countTests rest

/-- The number of real tests in a vector that end with a nonzero
failure counter when executed. -/
def countFails : List Entry → Nat
  | [] => 0
  | .test td :: rest => (if testFails td then 1 else 0) + countFails rest
  | _ :: rest => countFails rest

/-- Whether `Runner::run` executes the group's vector (as opposed to
skipping it after inspecting `tests[0]`). -/
def groupRuns (om : Bool) (tests : List Entry) : Bool :=
  match tests with
  | [] => false
  | e :: _ => !(skipCheck e om)

/-- A group's contribution to the run-level fail tally. -/
def failContribution (om : Bool) (p : Str × List Entry) : Nat :=
  if groupRuns om p.2 then countFails p.2 else 0

/-- A group's contribution to the skip tally: `tests.size() - 1` when
the group is skipped (an empty vector is unreachable from the
registration API, see `groupsNonempty_applyOps`). -/
def skipContribution (om : Bool) (p : Str × List Entry) : Nat :=
  match p.2 with
  | [] => 0
  | e :: _ => if skipCheck e om then p.2.length - 1 else 0

/-- The run-level fail tally, computed group by group from the registry. -/
def totalFails (reg : Registry) : Nat :=
  (reg.groups.map (failContribution reg.only_mode)).sum

/-- The run-level skip tally, computed group by group from the registry. -/
def totalSkips (reg : Registry) : Nat :=
  (reg.groups.map (skipContribution reg.only_mode)).sum

/-- The group map's keys are strictly sorted (the `std::map` invariant). -/
def SortedKeys (m : List (Str × List Entry)) : Prop :=
  m.Pairwise (fun a b => a.1.data < b.1.data)

/-- The group map's keys are pairwise distinct (a consequence of the
`std::map` sortedness invariant, stated on the keys alone so that it is
decidable on concrete registries). -/
def KeysDistinct (m : List (Str × List Entry)) : Prop :=
  (m.map Prod.fst).Pairwise (fun a b => a ≠ b)

/-- The discipline of the `Runner::current` pointer over a trace:
`Steps c evs c'` holds when, starting with `current = c`, the events
`evs` respect the protocol — every hook/body invocation happens while
`current` points at exactly that entry, `current` is only set from null
and only cleared from non-null — and leave `current = c'`. -/
inductive Steps : Option TestId → List Ev → Option TestId → Prop
  | nil (c : Option TestId) : Steps c [] c
  | out (c c' : Option TestId) (l : OutLine) (t : List Ev) :
      Steps c t c' → Steps c (Ev.out l :: t) c'
  | call (id : TestId) (c' : Option TestId) (e : Ev) (t : List Ev) :
      e.callId = some id → Steps (some id) t c' → Steps (some id) (e :: t) c'
  | set (id : TestId) (c' : Option TestId) (t : List Ev) :
      Steps (some id) t c' → Steps none (Ev.curSet (some id) :: t) c'
  | clear (id : TestId) (c' : Option TestId) (t : List Ev) :
      Steps none t c' → Steps (some id) (Ev.curSet none :: t) c'

/-- A sample test whose body does nothing (and hence passes). -/
def tdPassing : TestDef := ⟨"passing", "t.cc", 1, [], [], []⟩

/-- A sample test whose body runs one failing `is_eq(1, 2)`. -/
def tdFailing : TestDef :=
  ⟨"failing", "t.cc", 5, [],
   [.assert "eq" "==" (fun r l => decide (r = l)) "t.cc" 6 "1" 1 "2" 2], []⟩

/-- A sample test whose body throws. -/
def tdFaulting : TestDef := ⟨"faulting", "t.cc", 9, [], [.fault "boom"], []⟩

/-- Registry with one failing and one passing test in separate groups. -/
def regSample : Registry :=
  applyOps [.add "a" tdFailing, .add "b" tdPassing]

/-- Registry where `skip("g")` was called and then `only("g")`: the
group's vector is `[&Flag::only, &Flag::skip, &test]`. -/
def regSkipThenOnly : Registry :=
  applyOps [.add "g" tdPassing, .skip "g", .only "g"]

/-- Registry where `only("a")` was called and group `"b"` carries no
sentinel: `"b"` is skipped by only-mode. -/
def regOnlyA : Registry :=
  applyOps [.add "a" tdPassing, .add "b" tdPassing, .only "a"]

/-- Registry with a single test whose body throws. -/
def regFault : Registry :=
  applyOps [.add "f" tdFaulting]

/-- Registry with a single passing test in group `"g"` and no
directives yet. -/
def regG : Registry :=
  applyOps [.add "g" tdPassing]

/-! ## Helper lemmas -/

theorem upsert_mem {g : Str} {f : List Entry → List Entry}
    {m : List (Str × List Entry)} {p : Str × List Entry}
    (hp : p ∈ upsert g f m) :
    p ∈ m ∨ ∃ v, p = (g, f v) ∧ (v = [] ∨ (g, v) ∈ m) := by
  induction m with
  | nil =>
    simp only [upsert, List.mem_singleton] at hp
    exact Or.inr ⟨[], hp, Or.inl rfl⟩
  | cons kv rest ih =>
    obtain ⟨k, v⟩ := kv
    simp only [upsert] at hp
    by_cases h1 : g.data < k.data
    · simp only [if_pos h1, List.mem_cons] at hp
      rcases hp with h | h | h
      · exact Or.inr ⟨[], h, Or.inl rfl⟩
      · exact Or.inl (by simp [h])
      · exact Or.inl (List.mem_cons_of_mem _ h)
    · by_cases h2 : g = k
      · simp only [if_neg h1, if_pos h2, List.mem_cons] at hp
        rcases hp with h | h
        · subst h2
          exact Or.inr ⟨v, h, Or.inr (List.mem_cons_self _ _)⟩
        · exact Or.inl (List.mem_cons_of_mem _ h)
      · simp only [if_neg h1, if_neg h2, List.mem_cons] at hp
        rcases hp with h | h
        · exact Or.inl (by simp [h])
        · rcases ih h with h' | ⟨v', hv', hm⟩
          · exact Or.inl (List.mem_cons_of_mem _ h')
          · refine Or.inr ⟨v', hv', ?_⟩
            rcases hm with hm | hm
            · exact Or.inl hm
            · exact Or.inr (List.mem_cons_of_mem _ hm)

/-- Every group's vector is non-empty. -/
def GroupsNonempty (reg : Registry) : Prop :=
  ∀ p ∈ reg.groups, p.2 ≠ []

theorem groupsNonempty_applyOp {reg : Registry} (h : GroupsNonempty reg)
    (op : Op) : GroupsNonempty (applyOp reg op) := by
  have key : ∀ (g : Str) (f : List Entry → List Entry),
      (∀ v, f v ≠ []) →
      ∀ p ∈ upsert g f reg.groups, p.2 ≠ [] := by
    intro g f hf p hp
    rcases upsert_mem hp with hm | ⟨v, hv, _⟩
    · exact h p hm
    · rw [hv]; exact hf v
  cases op with
  | add g td =>
    exact key g _ (fun v => by simp)
  | skip g =>
    exact key g _ (fun v => by simp)
  | only g =>
    exact key g _ (fun v => by simp)

theorem groupsNonempty_applyOps (ops : List Op) :
    GroupsNonempty (applyOps ops) := by
  have gen : ∀ (l : List Op) (reg : Registry), GroupsNonempty reg →
      GroupsNonempty (l.foldl applyOp reg) := by
    intro l
    induction l with
    | nil => intro reg h; exact h
    | cons op rest ih =>
      intro reg h
      exact ih _ (groupsNonempty_applyOp h op)
  exact gen ops Registry.empty (by intro p hp; simp [Registry.empty] at hp)

theorem execTest_ok_failed {g : Str} {i : Nat} {td : TestDef} {t : TestCase}
    (h : (execTest g i td).2 = Except.ok t) : t.failed = finalFailed td := by
  unfold execTest at h
  cases hb : (runBody (runHook td.init td.beforeActs).1 td.body).2.2 with
  | none =>
    simp only [hb] at h
    cases h
    rfl
  | some m =>
    simp only [hb] at h
    cases h

theorem runTests_ok_nfail {g : Str} {es : List Entry} :
    ∀ {i n : Nat}, (runTests g i es).2 = Except.ok n → n = countFails es := by
  induction es with
  | nil =>
    intro i n h
    simp only [runTests] at h
    cases h
    rfl
  | cons e rest ih =>
    intro i n h
    cases e with
    | skipFlag =>
      simp only [runTests] at h
      exact ih h
    | onlyFlag =>
      simp only [runTests] at h
      exact ih h
    | test td =>
      simp only [runTests] at h
      cases h1 : (execTest g i td).2 with
      | error e' => rw [h1] at h; cases h
      | ok t =>
        rw [h1] at h
        cases h2 : (runTests g (i + 1) rest).2 with
        | error e' => rw [h2] at h; cases h
        | ok m =>
          rw [h2] at h
          cases h
          rw [ih h2, execTest_ok_failed h1, countFails]
          by_cases hf : finalFailed td = 0 <;> simp [testFails, hf]

theorem runGroups_ok_tallies {om : Bool} {gs : List (Str × List Entry)}
    {nf ns : Nat} (h : (runGroups om gs).2 = Except.ok (nf, ns)) :
    nf = (gs.map (failContribution om)).sum ∧
    ns = (gs.map (skipContribution om)).sum := by
  induction gs generalizing nf ns with
  | nil =>
    simp only [runGroups] at h
    cases h
    constructor <;> rfl
  | cons p rest ih =>
    obtain ⟨g, tests⟩ := p
    cases tests with
    | nil =>
      simp only [runGroups] at h
      have := ih h
      simpa [failContribution, skipContribution, groupRuns] using this
    | cons t0 ts =>
      simp only [runGroups] at h
      by_cases hsk : skipCheck t0 om
      · rw [if_pos hsk] at h
        cases h2 : (runGroups om rest).2 with
        | error e' => rw [h2] at h; cases h
        | ok p' =>
          obtain ⟨nf', ns'⟩ := p'
          rw [h2] at h
          simp only [Except.map] at h
          cases h
          obtain ⟨ihf, ihs⟩ := ih h2
          constructor
          · simpa [failContribution, groupRuns, hsk] using ihf
          · rw [List.map_cons, List.sum_cons, ← ihs]
            simp [skipContribution, hsk]
      · rw [if_neg hsk] at h
        cases h1 : (runTests g 0 (t0 :: ts)).2 with
        | error e' => rw [h1] at h; cases h
        | ok nf1 =>
          rw [h1] at h
          cases h2 : (runGroups om rest).2 with
          | error e' => rw [h2] at h; cases h
          | ok p' =>
            obtain ⟨nf', ns'⟩ := p'
            rw [h2] at h
            simp only [Except.map] at h
            cases h
            obtain ⟨ihf, ihs⟩ := ih h2
            constructor
            · rw [List.map_cons, List.sum_cons, ← ihf,
                failContribution, if_pos (by simp [groupRuns, hsk]),
                runTests_ok_nfail h1]
            · simpa [skipContribution, hsk] using ihs

theorem isFn_some_ok {L R : Type} {name compSym : Str} {comp : R → L → Bool}
    {pL pR : Bool} {showL : L → Str} {showR : R → Str} {f : Str} {l : Nat}
    {lhsStr : Str} {lhs : L} {rhsStr : Str} {rhs : R}
    {t t' : TestCase} {b : Bool} {outs : List OutLine}
    (h : isFn name compSym comp pL pR showL showR f l lhsStr lhs rhsStr rhs
        (some t) = Except.ok (t', b, outs)) :
    (t' = t ∧ outs = []) ∨
    (t' = { t with failed := t.failed + 1 } ∧
     ∃ txt, outs = ({ t with failed := t.failed + 1 } : TestCase).output
        ++ [OutLine.failText f l txt]) := by
  cases hdone : t.done with
  | true => simp [isFn, hdone] at h
  | false =>
    simp only [isFn, hdone, Bool.false_eq_true, if_false] at h
    by_cases hc : comp rhs lhs = true
    · rw [if_pos hc] at h
      simp only [Except.ok.injEq, Prod.mk.injEq] at h
      exact Or.inl ⟨h.1.symm, h.2.2.symm⟩
    · rw [if_neg hc] at h
      simp only [TestCase.fail, hdone, Except.ok.injEq, Prod.mk.injEq] at h
      exact Or.inr ⟨h.1.symm, _, h.2.2.symm⟩

theorem isFn_some_fields {L R : Type} {name compSym : Str} {comp : R → L → Bool}
    {pL pR : Bool} {showL : L → Str} {showR : R → Str} {f : Str} {l : Nat}
    {lhsStr : Str} {lhs : L} {rhsStr : Str} {rhs : R}
    {t t' : TestCase} {b : Bool} {outs : List OutLine}
    (h : isFn name compSym comp pL pR showL showR f l lhsStr lhs rhsStr rhs
        (some t) = Except.ok (t', b, outs)) :
    t'.title = t.title ∧ t'.file = t.file ∧ t'.line = t.line ∧
    t'.done = t.done ∧ t.failed ≤ t'.failed := by
  rcases isFn_some_ok h with ⟨rfl, _⟩ | ⟨rfl, _⟩
  · exact ⟨rfl, rfl, rfl, rfl, Nat.le_refl _⟩
  · exact ⟨rfl, rfl, rfl, rfl, Nat.le_succ _⟩

theorem runHook_fields (t : TestCase) (hs : List HookAct) :
    (runHook t hs).1.title = t.title ∧ (runHook t hs).1.file = t.file ∧
    (runHook t hs).1.line = t.line ∧ (runHook t hs).1.done = t.done ∧
    t.failed ≤ (runHook t hs).1.failed := by
  induction hs generalizing t with
  | nil => exact ⟨rfl, rfl, rfl, rfl, Nat.le_refl _⟩
  | cons a rest ih =>
    cases a with
    | failMsg m =>
      have step : (runHook t (HookAct.failMsg m :: rest)).1
          = (runHook ((t.failMsg m).1) rest).1 := rfl
      have hmsg : (t.failMsg m).1 = { t with failed := t.failed + 1 } := rfl
      rw [step, hmsg]
      obtain ⟨h1, h2, h3, h4, h5⟩ := ih { t with failed := t.failed + 1 }
      exact ⟨h1, h2, h3, h4, Nat.le_trans (Nat.le_succ _) h5⟩

theorem runBody_fields (t : TestCase) (acts : List BodyAct) :
    (runBody t acts).1.title = t.title ∧ (runBody t acts).1.file = t.file ∧
    (runBody t acts).1.line = t.line ∧ (runBody t acts).1.done = t.done ∧
    t.failed ≤ (runBody t acts).1.failed := by
  induction acts generalizing t with
  | nil => exact ⟨rfl, rfl, rfl, rfl, Nat.le_refl _⟩
  | cons a rest ih =>
    cases a with
    | fault m => exact ⟨rfl, rfl, rfl, rfl, Nat.le_refl _⟩
    | assert n sym cmp f l ls lv rs rv =>
      simp only [runBody]
      cases hia : isFn n sym cmp true true toString toString f l ls lv rs rv
          (some t) with
      | error m => exact ⟨rfl, rfl, rfl, rfl, Nat.le_refl _⟩
      | ok trip =>
        obtain ⟨t', b, outs⟩ := trip
        obtain ⟨f1, f2, f3, f4, f5⟩ := isFn_some_fields hia
        obtain ⟨g1, g2, g3, g4, g5⟩ := ih t'
        simp only
        exact ⟨g1.trans f1, g2.trans f2, g3.trans f3, g4.trans f4,
          Nat.le_trans f5 g5⟩

theorem runHook_markFail {t : TestCase} {hs : List HookAct}
    (hdone : t.done = false) (h0 : t.failed = 0)
    (hf : 1 ≤ (runHook t hs).1.failed) :
    OutLine.markFail t.title ∈ (runHook t hs).2 := by
  cases hs with
  | nil =>
    simp only [runHook] at hf
    omega
  | cons a rest =>
    cases a with
    | failMsg m =>
      have step : (runHook t (HookAct.failMsg m :: rest)).2
          = (t.failMsg m).2 ++ (runHook ((t.failMsg m).1) rest).2 := rfl
      rw [step]
      refine List.mem_append_left _ ?_
      show OutLine.markFail t.title ∈
        ({ t with failed := t.failed + 1 } : TestCase).output
          ++ [OutLine.failText t.file t.line
                (if m.isEmpty then m else m ++ "\n")]
      rw [h0]
      refine List.mem_append_left _ ?_
      simp [TestCase.output, hdone]

theorem runBody_markFail {t : TestCase} {acts : List BodyAct}
    (hdone : t.done = false) (h0 : t.failed = 0)
    (hf : 1 ≤ (runBody t acts).1.failed) :
    OutLine.markFail t.title ∈ (runBody t acts).2.1 := by
  induction acts generalizing t with
  | nil =>
    simp only [runBody] at hf
    omega
  | cons a rest ih =>
    cases a with
    | fault m =>
      simp only [runBody] at hf
      omega
    | assert n sym cmp f l ls lv rs rv =>
      cases hia : isFn n sym cmp true true toString toString f l ls lv rs rv
          (some t) with
      | error m =>
        have hsh : runBody t (BodyAct.assert n sym cmp f l ls lv rs rv :: rest)
            = (t, [], some m) := by
          simp only [runBody, hia]
        rw [hsh] at hf
        simp only at hf
        omega
      | ok trip =>
        obtain ⟨t', b, outs⟩ := trip
        have hsh : runBody t (BodyAct.assert n sym cmp f l ls lv rs rv :: rest)
            = ((runBody t' rest).1, outs ++ (runBody t' rest).2.1,
               (runBody t' rest).2.2) := by
          simp only [runBody, hia]
        rw [hsh] at hf ⊢
        simp only at hf ⊢
        rcases isFn_some_ok hia with ⟨rfl, -⟩ | ⟨rfl, txt, houts⟩
        · exact List.mem_append_right _ (ih hdone h0 hf)
        · refine List.mem_append_left _ ?_
          rw [houts, h0]
          refine List.mem_append_left _ ?_
          simp [TestCase.output, hdone]

theorem execTest_err_shape (g : Str) (i : Nat) {td : TestDef} {m : Str}
    (hb : (runBody (runHook td.init td.beforeActs).1 td.body).2.2 = some m) :
    execTest g i td =
      (Ev.curSet (some (g, i)) :: Ev.beforeCall (g, i) ::
          ((runHook td.init td.beforeActs).2.map Ev.out
            ++ Ev.bodyCall (g, i) ::
              ((runBody (runHook td.init td.beforeActs).1 td.body).2.1.map
                  Ev.out
                ++ (((runBody (runHook td.init td.beforeActs).1 td.body).1.failMsg
                      "Uncaught exception").2.map Ev.out))),
       Except.error ⟨g, i,
         ((runBody (runHook td.init td.beforeActs).1 td.body).1.failMsg
            "Uncaught exception").1, m⟩) := by
  simp only [execTest, hb]
  simp [List.append_assoc]

theorem execTest_err_mem_bef {g : Str} {i : Nat} {td : TestDef} {m : Str}
    {x : OutLine}
    (hb : (runBody (runHook td.init td.beforeActs).1 td.body).2.2 = some m)
    (hx : x ∈ (runHook td.init td.beforeActs).2) :
    Ev.out x ∈ (execTest g i td).1 := by
  rw [execTest_err_shape g i hb]
  refine List.mem_cons_of_mem _ (List.mem_cons_of_mem _ ?_)
  exact List.mem_append_left _ (List.mem_map_of_mem _ hx)

theorem execTest_err_mem_bod {g : Str} {i : Nat} {td : TestDef} {m : Str}
    {x : OutLine}
    (hb : (runBody (runHook td.init td.beforeActs).1 td.body).2.2 = some m)
    (hx : x ∈ (runBody (runHook td.init td.beforeActs).1 td.body).2.1) :
    Ev.out x ∈ (execTest g i td).1 := by
  rw [execTest_err_shape g i hb]
  refine List.mem_cons_of_mem _ (List.mem_cons_of_mem _ ?_)
  refine List.mem_append_right _ (List.mem_cons_of_mem _ ?_)
  exact List.mem_append_left _ (List.mem_map_of_mem _ hx)

theorem execTest_err_mem_ca {g : Str} {i : Nat} {td : TestDef} {m : Str}
    {x : OutLine}
    (hb : (runBody (runHook td.init td.beforeActs).1 td.body).2.2 = some m)
    (hx : x ∈ ((runBody (runHook td.init td.beforeActs).1 td.body).1.failMsg
        "Uncaught exception").2) :
    Ev.out x ∈ (execTest g i td).1 := by
  rw [execTest_err_shape g i hb]
  refine List.mem_cons_of_mem _ (List.mem_cons_of_mem _ ?_)
  refine List.mem_append_right _ (List.mem_cons_of_mem _ ?_)
  exact List.mem_append_right _ (List.mem_map_of_mem _ hx)

theorem execTest_error_rec {g : Str} {i : Nat} {td : TestDef} {fl : Fault}
    (h : (execTest g i td).2 = Except.error fl) :
    fl.group = g ∧ fl.index = i ∧ 1 ≤ fl.test.failed ∧
    fl.test.file = td.file ∧ fl.test.line = td.line ∧
    fl.test.title = td.title ∧
    Ev.out (OutLine.failText td.file td.line "Uncaught exception\n")
      ∈ (execTest g i td).1 ∧
    Ev.out (OutLine.markFail td.title) ∈ (execTest g i td).1 := by
  cases hb : (runBody (runHook td.init td.beforeActs).1 td.body).2.2 with
  | none =>
    simp only [execTest, hb] at h
    cases h
  | some m =>
    obtain ⟨hb1, hb2, hb3, hb4, hb5⟩ := runHook_fields td.init td.beforeActs
    obtain ⟨hc1, hc2, hc3, hc4, hc5⟩ :=
      runBody_fields (runHook td.init td.beforeActs).1 td.body
    have hfl : fl = ⟨g, i,
        ((runBody (runHook td.init td.beforeActs).1 td.body).1.failMsg
          "Uncaught exception").1, m⟩ := by
      have h2 := h
      rw [execTest_err_shape g i hb] at h2
      simp only at h2
      injection h2 with h2
      exact h2.symm
    have hfile : (runBody (runHook td.init td.beforeActs).1 td.body).1.file
        = td.file := hc2.trans hb2
    have hline : (runBody (runHook td.init td.beforeActs).1 td.body).1.line
        = td.line := hc3.trans hb3
    have htitle : (runBody (runHook td.init td.beforeActs).1 td.body).1.title
        = td.title := hc1.trans hb1
    have hdone : (runBody (runHook td.init td.beforeActs).1 td.body).1.done
        = false := hc4.trans hb4
    have hmsg : (if ("Uncaught exception" : Str).isEmpty
        then ("Uncaught exception" : Str)
        else "Uncaught exception" ++ "\n") = "Uncaught exception\n" := by
      decide
    have hie : ("Uncaught exception" : Str).isEmpty = false := by decide
    have happ : "Uncaught exception" ++ "\n" = "Uncaught exception\n" := by
      decide
    have hcatxt :
        ((runBody (runHook td.init td.beforeActs).1 td.body).1.failMsg
          "Uncaught exception").2
        = ({ (runBody (runHook td.init td.beforeActs).1 td.body).1 with
              failed := (runBody (runHook td.init td.beforeActs).1
                td.body).1.failed + 1 } : TestCase).output
          ++ [OutLine.failText
                (runBody (runHook td.init td.beforeActs).1 td.body).1.file
                (runBody (runHook td.init td.beforeActs).1 td.body).1.line
                ("Uncaught exception\n")] := by
      simp [TestCase.failMsg, TestCase.fail, hmsg, hie, happ]
    subst hfl
    refine ⟨rfl, rfl, Nat.succ_le_succ (Nat.zero_le _), hfile, hline, htitle,
      ?_, ?_⟩
    · refine execTest_err_mem_ca hb ?_
      rw [hcatxt, hfile, hline]
      exact List.mem_append_right _ (List.mem_singleton_self _)
    · by_cases hfz :
          (runBody (runHook td.init td.beforeActs).1 td.body).1.failed = 0
      · refine execTest_err_mem_ca hb ?_
        rw [hcatxt]
        refine List.mem_append_left _ ?_
        rw [← htitle]
        simp [TestCase.output, hdone, hfz]
      · by_cases hbz : (runHook td.init td.beforeActs).1.failed = 0
        · refine execTest_err_mem_bod hb ?_
          have hbt : (runHook td.init td.beforeActs).1.title = td.title :=
            hb1.trans rfl
          rw [← hbt]
          have hbd : (runHook td.init td.beforeActs).1.done = false :=
            hb4.trans rfl
          have hbf :
              1 ≤ (runBody (runHook td.init td.beforeActs).1 td.body).1.failed := by
            omega
          exact runBody_markFail hbd hbz hbf
        · refine execTest_err_mem_bef hb ?_
          have h0 : (td.init).failed = 0 := rfl
          have hd0 : (td.init).done = false := rfl
          have hhf : 1 ≤ (runHook td.init td.beforeActs).1.failed := by omega
          exact runHook_markFail hd0 h0 hhf

theorem upsert_self_mem (g : Str) (f : List Entry → List Entry) :
    ∀ m : List (Str × List Entry), ∃ v, (g, f v) ∈ upsert g f m := by
  intro m
  induction m with
  | nil => exact ⟨[], List.mem_singleton_self _⟩
  | cons kv rest ih =>
    obtain ⟨k, v⟩ := kv
    simp only [upsert]
    by_cases h1 : g.data < k.data
    · rw [if_pos h1]
      exact ⟨[], List.mem_cons_self _ _⟩
    · rw [if_neg h1]
      by_cases h2 : g = k
      · rw [if_pos h2]
        subst h2
        exact ⟨v, List.mem_cons_self _ _⟩
      · rw [if_neg h2]
        obtain ⟨v', hv'⟩ := ih
        exact ⟨v', List.mem_cons_of_mem _ hv'⟩

theorem upsert_sorted {m : List (Str × List Entry)} (h : SortedKeys m)
    (g : Str) (f : List Entry → List Entry) : SortedKeys (upsert g f m) := by
  induction m with
  | nil =>
    unfold SortedKeys upsert
    exact List.pairwise_singleton _ _
  | cons kv rest ih =>
    obtain ⟨k, v⟩ := kv
    unfold SortedKeys at h
    rw [List.pairwise_cons] at h
    obtain ⟨hk, hrest⟩ := h
    unfold SortedKeys
    simp only [upsert]
    by_cases h1 : g.data < k.data
    · rw [if_pos h1]
      rw [List.pairwise_cons]
      constructor
      · intro q hq
        rcases List.mem_cons.mp hq with rfl | hq'
        · exact h1
        · exact lt_trans h1 (hk q hq')
      · rw [List.pairwise_cons]
        exact ⟨hk, hrest⟩
    · rw [if_neg h1]
      by_cases h2 : g = k
      · rw [if_pos h2]
        rw [List.pairwise_cons]
        exact ⟨hk, hrest⟩
      · rw [if_neg h2]
        have hkg : k.data < g.data := by
          rcases lt_trichotomy g.data k.data with hlt | heq | hgt
          · exact absurd hlt h1
          · exact absurd (String.ext heq) h2
          · exact hgt
        rw [List.pairwise_cons]
        constructor
        · intro q hq
          rcases upsert_mem hq with hq' | ⟨v', rfl, _⟩
          · exact hk q hq'
          · exact hkg
        · exact ih hrest

theorem sortedKeys_distinct {m : List (Str × List Entry)}
    (h : SortedKeys m) : KeysDistinct m := by
  unfold SortedKeys at h
  unfold KeysDistinct
  rw [List.pairwise_map]
  refine h.imp ?_
  intro a b hlt heq
  rw [heq] at hlt
  exact lt_irrefl _ hlt

theorem runTests_test_tr {g : Str} {i : Nat} {td : TestDef}
    {rest : List Entry} {t : TestCase}
    (h1 : (execTest g i td).2 = Except.ok t) :
    (runTests g i (Entry.test td :: rest)).1 =
      (execTest g i td).1 ++ (runTests g (i + 1) rest).1 := by
  simp only [runTests, h1]
  cases h2 : (runTests g (i + 1) rest).2 <;> simp [h2]

theorem runTests_test_res {g : Str} {i : Nat} {td : TestDef}
    {rest : List Entry} {t : TestCase}
    (h1 : (execTest g i td).2 = Except.ok t) :
    (runTests g i (Entry.test td :: rest)).2 =
      (runTests g (i + 1) rest).2.map
        (fun n => (if t.failed == 0 then 0 else 1) + n) := by
  simp only [runTests, h1]
  cases h2 : (runTests g (i + 1) rest).2 <;> simp [h2, Except.map]

theorem execTest_ok_seg {g : Str} {i : Nat} {td : TestDef} {t : TestCase}
    (h : (execTest g i td).2 = Except.ok t) :
    ∃ A B C, (execTest g i td).1 =
      Ev.curSet (some (g, i)) :: Ev.beforeCall (g, i) ::
        (A ++ Ev.bodyCall (g, i) :: (B ++ Ev.afterCall (g, i) :: C)) := by
  cases hb : (runBody (runHook td.init td.beforeActs).1 td.body).2.2 with
  | some m =>
    simp only [execTest, hb] at h
    cases h
  | none =>
    refine ⟨(runHook td.init td.beforeActs).2.map Ev.out,
      (runBody (runHook td.init td.beforeActs).1 td.body).2.1.map Ev.out,
      (runHook (runBody (runHook td.init td.beforeActs).1 td.body).1
          td.afterActs).2.map Ev.out
        ++ ({ (runHook (runBody (runHook td.init td.beforeActs).1 td.body).1
              td.afterActs).1 with done := true } : TestCase).output.map Ev.out
        ++ [Ev.curSet none], ?_⟩
    simp only [execTest, hb]
    simp [List.append_assoc]

theorem runTests_ok_seg {g : Str} {es : List Entry} :
    ∀ {i n : Nat}, (runTests g i es).2 = Except.ok n →
    ∀ {j : Nat} {td : TestDef}, es.get? j = some (Entry.test td) →
    ∃ E1 E2 t, (runTests g i es).1 = E1 ++ (execTest g (i + j) td).1 ++ E2 ∧
      (execTest g (i + j) td).2 = Except.ok t := by
  induction es with
  | nil =>
    intro i n h j td hj
    simp at hj
  | cons e rest ih =>
    intro i n h j td hj
    cases e with
    | skipFlag =>
      cases j with
      | zero => simp at hj
      | succ j' =>
        have hj' : rest.get? j' = some (Entry.test td) := hj
        have hh : (runTests g (i + 1) rest).2 = Except.ok n := h
        obtain ⟨E1, E2, t, htr, hok⟩ := ih hh hj'
        have hidx : (i + 1) + j' = i + (j' + 1) := by omega
        rw [hidx] at htr hok
        exact ⟨E1, E2, t, htr, hok⟩
    | onlyFlag =>
      cases j with
      | zero => simp at hj
      | succ j' =>
        have hj' : rest.get? j' = some (Entry.test td) := hj
        have hh : (runTests g (i + 1) rest).2 = Except.ok n := h
        obtain ⟨E1, E2, t, htr, hok⟩ := ih hh hj'
        have hidx : (i + 1) + j' = i + (j' + 1) := by omega
        rw [hidx] at htr hok
        exact ⟨E1, E2, t, htr, hok⟩
    | test td' =>
      cases h1 : (execTest g i td').2 with
      | error e' =>
        simp only [runTests, h1] at h
        simp at h
      | ok t' =>
        have htr0 : (runTests g i (Entry.test td' :: rest)).1 =
            (execTest g i td').1 ++ (runTests g (i + 1) rest).1 :=
          runTests_test_tr h1
        have hres : (runTests g i (Entry.test td' :: rest)).2 =
            (runTests g (i + 1) rest).2.map
              (fun n => (if t'.failed == 0 then 0 else 1) + n) :=
          runTests_test_res h1
        rw [hres] at h
        cases h2 : (runTests g (i + 1) rest).2 with
        | error e' => rw [h2] at h; cases h
        | ok m =>
          cases j with
          | zero =>
            have htd : td' = td := by
              have := hj
              simp only [List.get?] at this
              cases this
              rfl
            subst htd
            refine ⟨[], (runTests g (i + 1) rest).1, t', ?_, ?_⟩
            · rw [Nat.add_zero, htr0, List.nil_append]
            · rw [Nat.add_zero]; exact h1
          | succ j' =>
            have hj' : rest.get? j' = some (Entry.test td) := hj
            obtain ⟨E1, E2, t, htr, hok⟩ := ih h2 hj'
            have hidx : (i + 1) + j' = i + (j' + 1) := by omega
            rw [hidx] at htr hok
            refine ⟨(execTest g i td').1 ++ E1, E2, t, ?_, hok⟩
            rw [htr0, htr]
            simp [List.append_assoc]

theorem runGroups_skip_shape {om : Bool} {g : Str} {t0 : Entry}
    {ts : List Entry} {rest : List (Str × List Entry)}
    (hsk : skipCheck t0 om = true) :
    runGroups om ((g, t0 :: ts) :: rest) =
      ((runGroups om rest).1,
       (runGroups om rest).2.map
         (fun p => (p.1, ((t0 :: ts).length - 1) + p.2))) := by
  simp [runGroups, hsk]

theorem runGroups_exec_shape {om : Bool} {g : Str} {t0 : Entry}
    {ts : List Entry} {rest : List (Str × List Entry)} {n1 : Nat}
    (hsk : skipCheck t0 om = false)
    (h1 : (runTests g 0 (t0 :: ts)).2 = Except.ok n1) :
    runGroups om ((g, t0 :: ts) :: rest) =
      (Ev.out (OutLine.groupHeader g) ::
         ((runTests g 0 (t0 :: ts)).1 ++ (runGroups om rest).1),
       (runGroups om rest).2.map (fun p => (n1 + p.1, p.2))) := by
  simp [runGroups, hsk, h1]

theorem runGroups_exec_err_shape {om : Bool} {g : Str} {t0 : Entry}
    {ts : List Entry} {rest : List (Str × List Entry)} {e : Fault}
    (hsk : skipCheck t0 om = false)
    (h1 : (runTests g 0 (t0 :: ts)).2 = Except.error e) :
    runGroups om ((g, t0 :: ts) :: rest) =
      (Ev.out (OutLine.groupHeader g) :: (runTests g 0 (t0 :: ts)).1,
       Except.error e) := by
  simp [runGroups, hsk, h1]

theorem runGroups_ok_seg {om : Bool} {gs : List (Str × List Entry)} :
    ∀ {p : Nat × Nat}, (runGroups om gs).2 = Except.ok p →
    ∀ {g : Str} {tests : List Entry}, (g, tests) ∈ gs →
    groupRuns om tests = true →
    ∃ E1 E2 n, (runGroups om gs).1 = E1 ++ (runTests g 0 tests).1 ++ E2 ∧
      (runTests g 0 tests).2 = Except.ok n := by
  induction gs with
  | nil =>
    intro p h g tests hmem
    cases hmem
  | cons q rest ih =>
    intro p h g tests hmem hruns
    obtain ⟨g', tests'⟩ := q
    rcases List.mem_cons.mp hmem with heq | hmem'
    · injection heq with hg ht
      subst hg
      subst ht
      cases tests with
      | nil => simp [groupRuns] at hruns
      | cons t0 ts =>
        have hsk : skipCheck t0 om = false := by
          simpa [groupRuns] using hruns
        cases h1 : (runTests g 0 (t0 :: ts)).2 with
        | error e' =>
          rw [runGroups_exec_err_shape hsk h1] at h
          cases h
        | ok n1 =>
          refine ⟨[Ev.out (OutLine.groupHeader g)], (runGroups om rest).1,
            n1, ?_, rfl⟩
          rw [runGroups_exec_shape hsk h1]
          simp
    · cases tests' with
      | nil =>
        have hh : (runGroups om rest).2 = Except.ok p := h
        obtain ⟨E1, E2, n, htr, hok⟩ := ih hh hmem' hruns
        exact ⟨E1, E2, n, htr, hok⟩
      | cons t0' ts' =>
        by_cases hsk0 : skipCheck t0' om
        · rw [runGroups_skip_shape hsk0] at h
          simp only at h
          cases h2 : (runGroups om rest).2 with
          | error e' => rw [h2] at h; simp [Except.map] at h
          | ok p2 =>
            obtain ⟨E1, E2, n, htr, hok⟩ := ih h2 hmem' hruns
            refine ⟨E1, E2, n, ?_, hok⟩
            rw [runGroups_skip_shape hsk0]
            exact htr
        · have hsk : skipCheck t0' om = false := by simpa using hsk0
          cases h1 : (runTests g' 0 (t0' :: ts')).2 with
          | error e' =>
            rw [runGroups_exec_err_shape hsk h1] at h
            cases h
          | ok n1 =>
            rw [runGroups_exec_shape hsk h1] at h
            simp only at h
            cases h2 : (runGroups om rest).2 with
            | error e' => rw [h2] at h; simp [Except.map] at h
            | ok p2 =>
              obtain ⟨E1, E2, n, htr, hok⟩ := ih h2 hmem' hruns
              refine ⟨Ev.out (OutLine.groupHeader g') :: ((runTests g' 0
                  (t0' :: ts')).1 ++ E1), E2, n, ?_, hok⟩
              rw [runGroups_exec_shape hsk h1]
              simp only
              rw [htr]
              simp [List.append_assoc]

theorem run_executes_test {reg : Registry} {res : Nat × Nat × Nat}
    (h : (Runner.run reg).2 = Except.ok res)
    {g : Str} {tests : List Entry} (hmem : (g, tests) ∈ reg.groups)
    (hruns : groupRuns reg.only_mode tests = true)
    {i : Nat} {td : TestDef} (hj : tests.get? i = some (Entry.test td)) :
    ∃ xs ys zs ws, (Runner.run reg).1 =
      xs ++ Ev.beforeCall (g, i) ::
        (ys ++ Ev.bodyCall (g, i) :: (zs ++ Ev.afterCall (g, i) :: ws)) := by
  cases hg : (runGroups reg.only_mode reg.groups).2 with
  | error e =>
    simp only [Runner.run, hg] at h
    cases h
  | ok p =>
    have htr : (Runner.run reg).1 = (runGroups reg.only_mode reg.groups).1
        ++ [Ev.out (OutLine.summary (p.1 == 0) p.2)] := by
      simp only [Runner.run, hg]
    obtain ⟨E1, E2, n, htr2, hok2⟩ := runGroups_ok_seg hg hmem hruns
    obtain ⟨F1, F2, t, htr3, hok3⟩ := runTests_ok_seg hok2 hj
    rw [Nat.zero_add] at htr3 hok3
    obtain ⟨A, B, C, htr4⟩ := execTest_ok_seg hok3
    refine ⟨E1 ++ F1 ++ [Ev.curSet (some (g, i))], A, B,
      C ++ F2 ++ E2 ++ [Ev.out (OutLine.summary (p.1 == 0) p.2)], ?_⟩
    rw [htr, htr2, htr3, htr4]
    simp [List.append_assoc]

theorem execTest_callId {g : Str} {i : Nat} {td : TestDef} :
    ∀ ev ∈ (execTest g i td).1, ev.callId = none ∨ ev.callId = some (g, i) := by
  intro ev hev
  simp only [execTest] at hev
  cases hb : (runBody (runHook td.init td.beforeActs).1 td.body).2.2 with
  | some m =>
    rw [hb] at hev
    simp only [List.mem_cons, List.mem_append, List.mem_map,
      List.mem_singleton] at hev
    casesm* _ ∨ _, Exists _, _ ∧ _
    all_goals subst_vars
    all_goals simp_all [Ev.callId]
  | none =>
    rw [hb] at hev
    simp only [List.mem_cons, List.mem_append, List.mem_map,
      List.mem_singleton] at hev
    casesm* _ ∨ _, Exists _, _ ∧ _
    all_goals subst_vars
    all_goals simp_all [Ev.callId]

theorem runTests_callId {g : Str} {es : List Entry} :
    ∀ {i : Nat}, ∀ ev ∈ (runTests g i es).1,
      ev.callId = none ∨ ∃ j, ev.callId = some (g, j) := by
  induction es with
  | nil => intro i ev hev; simp [runTests] at hev
  | cons e rest ih =>
    intro i ev hev
    cases e with
    | skipFlag => exact ih ev (by simpa [runTests] using hev)
    | onlyFlag => exact ih ev (by simpa [runTests] using hev)
    | test td =>
      simp only [runTests] at hev
      cases h1 : (execTest g i td).2 with
      | error e' =>
        rw [h1] at hev
        rcases execTest_callId ev hev with h | h
        · exact Or.inl h
        · exact Or.inr ⟨i, h⟩
      | ok t =>
        rw [h1] at hev
        cases h2 : (runTests g (i + 1) rest).2 with
        | error e' =>
          rw [h2] at hev
          rcases List.mem_append.mp hev with hm | hm
          · rcases execTest_callId ev hm with h | h
            · exact Or.inl h
            · exact Or.inr ⟨i, h⟩
          · exact ih ev hm
        | ok m =>
          rw [h2] at hev
          rcases List.mem_append.mp hev with hm | hm
          · rcases execTest_callId ev hm with h | h
            · exact Or.inl h
            · exact Or.inr ⟨i, h⟩
          · exact ih ev hm

theorem runGroups_callId {om : Bool} {gs : List (Str × List Entry)} :
    ∀ ev ∈ (runGroups om gs).1, ev.callId = none ∨
      ∃ g tests j, (g, tests) ∈ gs ∧ groupRuns om tests = true ∧
        ev.callId = some (g, j) := by
  induction gs with
  | nil => intro ev hev; simp [runGroups] at hev
  | cons p rest ih =>
    obtain ⟨g, tests⟩ := p
    intro ev hev
    have lift : ev.callId = none ∨
        (∃ g' tests' j, (g', tests') ∈ rest ∧ groupRuns om tests' = true ∧
          ev.callId = some (g', j)) →
        ev.callId = none ∨
        ∃ g' tests' j, (g', tests') ∈ (g, tests) :: rest ∧
          groupRuns om tests' = true ∧ ev.callId = some (g', j) := by
      intro h
      rcases h with h | ⟨g', ts', j, hm, hr, hc⟩
      · exact Or.inl h
      · exact Or.inr ⟨g', ts', j, List.mem_cons_of_mem _ hm, hr, hc⟩
    cases tests with
    | nil =>
      simp only [runGroups] at hev
      exact lift (ih ev hev)
    | cons t0 ts =>
      simp only [runGroups] at hev
      by_cases hsk : skipCheck t0 om
      · rw [if_pos hsk] at hev
        exact lift (ih ev hev)
      · rw [if_neg hsk] at hev
        have hruns : groupRuns om (t0 :: ts) = true := by
          simp [groupRuns, hsk]
        cases h1 : (runTests g 0 (t0 :: ts)).2 with
        | error e' =>
          rw [h1] at hev
          rcases List.mem_cons.mp hev with rfl | hm
          · exact Or.inl rfl
          · rcases runTests_callId ev hm with h | ⟨j, h⟩
            · exact Or.inl h
            · exact Or.inr ⟨g, t0 :: ts, j, List.mem_cons_self _ _, hruns, h⟩
        | ok nf1 =>
          rw [h1] at hev
          rcases List.mem_cons.mp hev with rfl | hm
          · exact Or.inl rfl
          · rcases List.mem_append.mp hm with hm' | hm'
            · rcases runTests_callId ev hm' with h | ⟨j, h⟩
              · exact Or.inl h
              · exact Or.inr ⟨g, t0 :: ts, j, List.mem_cons_self _ _, hruns, h⟩
            · exact lift (ih ev hm')

theorem run_callId {reg : Registry} :
    ∀ ev ∈ (Runner.run reg).1, ev.callId = none ∨
      ∃ g tests j, (g, tests) ∈ reg.groups ∧
        groupRuns reg.only_mode tests = true ∧ ev.callId = some (g, j) := by
  intro ev hev
  simp only [Runner.run] at hev
  cases hr : (runGroups reg.only_mode reg.groups).2 with
  | error e =>
    rw [hr] at hev
    exact runGroups_callId ev hev
  | ok p =>
    obtain ⟨nf, ns⟩ := p
    rw [hr] at hev
    rcases List.mem_append.mp hev with hm | hm
    · exact runGroups_callId ev hm
    · rcases List.mem_singleton.mp hm with rfl
      exact Or.inl rfl

theorem keys_unique {m : List (Str × List Entry)} (h : KeysDistinct m)
    {g : Str} {a b : List Entry} (ha : (g, a) ∈ m) (hb : (g, b) ∈ m) :
    a = b := by
  induction m with
  | nil => cases ha
  | cons p rest ih =>
    have h1 : ∀ q ∈ rest, p.1 ≠ q.1 := by
      unfold KeysDistinct at h
      rw [List.map_cons, List.pairwise_cons] at h
      intro q hq
      exact h.1 q.1 (List.mem_map_of_mem _ hq)
    have h2 : KeysDistinct rest := by
      unfold KeysDistinct at h ⊢
      rw [List.map_cons, List.pairwise_cons] at h
      exact h.2
    rcases List.mem_cons.mp ha with ha' | ha' <;>
      rcases List.mem_cons.mp hb with hb' | hb'
    · injection ha'.trans hb'.symm with hfst hsnd
    · have hne := h1 _ hb'
      rw [← ha'] at hne
      simp at hne
    · have hne := h1 _ ha'
      rw [← hb'] at hne
      simp at hne
    · exact ih h2 ha' hb'

theorem skipped_group_no_calls {reg : Registry} {g : Str} {tests : List Entry}
    (hdist : KeysDistinct reg.groups)
    (hmem : (g, tests) ∈ reg.groups)
    (hskip : groupRuns reg.only_mode tests = false) :
    ∀ ev ∈ (Runner.run reg).1, ∀ i, ev.callId ≠ some (g, i) := by
  intro ev hev i hc
  rcases run_callId ev hev with h | ⟨g', ts', j, hm, hr, hc'⟩
  · rw [h] at hc; cases hc
  · rw [hc'] at hc
    simp only [Option.some.injEq, Prod.mk.injEq] at hc
    obtain ⟨rfl, rfl⟩ := hc
    rw [keys_unique hdist hm hmem] at hr
    rw [hskip] at hr
    cases hr

theorem runTests_error_rec {g : Str} {es : List Entry} :
    ∀ {i : Nat} {fl : Fault}, (runTests g i es).2 = Except.error fl →
    1 ≤ fl.test.failed ∧
    Ev.out (OutLine.failText fl.test.file fl.test.line "Uncaught exception\n")
      ∈ (runTests g i es).1 ∧
    Ev.out (OutLine.markFail fl.test.title) ∈ (runTests g i es).1 := by
  induction es with
  | nil =>
    intro i fl h
    simp [runTests] at h
  | cons e rest ih =>
    intro i fl h
    cases e with
    | skipFlag => exact ih h
    | onlyFlag => exact ih h
    | test td =>
      cases h1 : (execTest g i td).2 with
      | error e' =>
        have hsh : runTests g i (Entry.test td :: rest)
            = ((execTest g i td).1, Except.error e') := by
          simp only [runTests, h1]
        rw [hsh] at h ⊢
        simp only at h ⊢
        injection h with h
        subst h
        obtain ⟨q1, q2, q3, q4, q5, q6, q7, q8⟩ := execTest_error_rec h1
        refine ⟨q3, ?_, ?_⟩
        · rw [q4, q5]; exact q7
        · rw [q6]; exact q8
      | ok t =>
        have htr0 : (runTests g i (Entry.test td :: rest)).1 =
            (execTest g i td).1 ++ (runTests g (i + 1) rest).1 :=
          runTests_test_tr h1
        have hres : (runTests g i (Entry.test td :: rest)).2 =
            (runTests g (i + 1) rest).2.map
              (fun n => (if t.failed == 0 then 0 else 1) + n) :=
          runTests_test_res h1
        rw [hres] at h
        cases h2 : (runTests g (i + 1) rest).2 with
        | error e2 =>
          rw [h2] at h
          simp only [Except.map] at h
          injection h with h
          subst h
          obtain ⟨q1, q2, q3⟩ := ih h2
          rw [htr0]
          exact ⟨q1, List.mem_append_right _ q2, List.mem_append_right _ q3⟩
        | ok m =>
          rw [h2] at h
          simp [Except.map] at h

theorem runGroups_error_rec {om : Bool} {gs : List (Str × List Entry)} :
    ∀ {fl : Fault}, (runGroups om gs).2 = Except.error fl →
    1 ≤ fl.test.failed ∧
    Ev.out (OutLine.failText fl.test.file fl.test.line "Uncaught exception\n")
      ∈ (runGroups om gs).1 ∧
    Ev.out (OutLine.markFail fl.test.title) ∈ (runGroups om gs).1 := by
  induction gs with
  | nil =>
    intro fl h
    simp [runGroups] at h
  | cons q rest ih =>
    intro fl h
    obtain ⟨g, tests⟩ := q
    cases tests with
    | nil => exact ih h
    | cons t0 ts =>
      by_cases hsk : skipCheck t0 om = true
      · rw [runGroups_skip_shape hsk] at h ⊢
        simp only at h ⊢
        cases h2 : (runGroups om rest).2 with
        | error e2 =>
          rw [h2] at h
          simp only [Except.map] at h
          injection h with h
          subst h
          exact ih h2
        | ok p =>
          rw [h2] at h
          simp [Except.map] at h
      · have hsk' : skipCheck t0 om = false := by simpa using hsk
        cases h1 : (runTests g 0 (t0 :: ts)).2 with
        | error e1 =>
          rw [runGroups_exec_err_shape hsk' h1] at h ⊢
          simp only at h ⊢
          injection h with h
          subst h
          obtain ⟨q1, q2, q3⟩ := runTests_error_rec h1
          exact ⟨q1, List.mem_cons_of_mem _ q2, List.mem_cons_of_mem _ q3⟩
        | ok n1 =>
          rw [runGroups_exec_shape hsk' h1] at h ⊢
          simp only at h ⊢
          cases h2 : (runGroups om rest).2 with
          | error e2 =>
            rw [h2] at h
            simp only [Except.map] at h
            injection h with h
            subst h
            obtain ⟨q1, q2, q3⟩ := ih h2
            exact ⟨q1, List.mem_cons_of_mem _ (List.mem_append_right _ q2),
              List.mem_cons_of_mem _ (List.mem_append_right _ q3)⟩
          | ok p =>
            rw [h2] at h
            simp [Except.map] at h

theorem steps_append {B : List Ev} {c'' : Option TestId} :
    ∀ {c c' : Option TestId} {A : List Ev}, Steps c A c' →
      Steps c' B c'' → Steps c (A ++ B) c'' := by
  intro c c' A hA
  induction hA with
  | nil d => intro hB; exact hB
  | out d d' l t ht ih => intro hB; exact Steps.out _ _ _ _ (ih hB)
  | call id d' e t hce ht ih => intro hB; exact Steps.call _ _ _ _ hce (ih hB)
  | set id d' t ht ih => intro hB; exact Steps.set _ _ _ (ih hB)
  | clear id d' t ht ih => intro hB; exact Steps.clear _ _ _ (ih hB)

theorem steps_outs (c : Option TestId) :
    ∀ os : List OutLine, Steps c (os.map Ev.out) c := by
  intro os
  induction os with
  | nil => exact Steps.nil c
  | cons o rest ih => exact Steps.out _ _ _ _ ih

theorem execTest_ok_steps {g : Str} {i : Nat} {td : TestDef} {t : TestCase}
    (h : (execTest g i td).2 = Except.ok t) :
    Steps none (execTest g i td).1 none := by
  cases hb : (runBody (runHook td.init td.beforeActs).1 td.body).2.2 with
  | some m =>
    simp only [execTest, hb] at h
    cases h
  | none =>
    have hsh : (execTest g i td).1 =
        Ev.curSet (some (g, i)) :: (Ev.beforeCall (g, i) ::
          ((runHook td.init td.beforeActs).2.map Ev.out
            ++ (Ev.bodyCall (g, i) ::
              ((runBody (runHook td.init td.beforeActs).1 td.body).2.1.map
                  Ev.out
                ++ (Ev.afterCall (g, i) ::
                  ((runHook (runBody (runHook td.init td.beforeActs).1
                      td.body).1 td.afterActs).2.map Ev.out
                    ++ (({ (runHook (runBody (runHook td.init
                          td.beforeActs).1 td.body).1 td.afterActs).1 with
                          done := true } : TestCase).output.map Ev.out
                      ++ [Ev.curSet none]))))))) := by
      simp only [execTest, hb]
      simp [List.append_assoc]
    rw [hsh]
    refine Steps.set _ _ _ ?_
    refine Steps.call _ _ _ _ rfl ?_
    refine steps_append (steps_outs _ _) ?_
    refine Steps.call _ _ _ _ rfl ?_
    refine steps_append (steps_outs _ _) ?_
    refine Steps.call _ _ _ _ rfl ?_
    refine steps_append (steps_outs _ _) ?_
    refine steps_append (steps_outs _ _) ?_
    exact Steps.clear _ _ _ (Steps.nil none)

theorem runTests_ok_steps {g : Str} {es : List Entry} :
    ∀ {i n : Nat}, (runTests g i es).2 = Except.ok n →
    Steps none (runTests g i es).1 none := by
  induction es with
  | nil =>
    intro i n h
    exact Steps.nil none
  | cons e rest ih =>
    intro i n h
    cases e with
    | skipFlag => exact ih h
    | onlyFlag => exact ih h
    | test td =>
      cases h1 : (execTest g i td).2 with
      | error e' =>
        simp only [runTests, h1] at h
        simp at h
      | ok t =>
        have htr : (runTests g i (Entry.test td :: rest)).1 =
            (execTest g i td).1 ++ (runTests g (i + 1) rest).1 :=
          runTests_test_tr h1
        have hres : (runTests g i (Entry.test td :: rest)).2 =
            (runTests g (i + 1) rest).2.map
              (fun n => (if t.failed == 0 then 0 else 1) + n) :=
          runTests_test_res h1
        rw [hres] at h
        cases h2 : (runTests g (i + 1) rest).2 with
        | error e2 =>
          rw [h2] at h
          simp [Except.map] at h
        | ok m =>
          rw [htr]
          exact steps_append (execTest_ok_steps h1) (ih h2)

theorem runGroups_ok_steps {om : Bool} {gs : List (Str × List Entry)} :
    ∀ {p : Nat × Nat}, (runGroups om gs).2 = Except.ok p →
    Steps none (runGroups om gs).1 none := by
  induction gs with
  | nil =>
    intro p h
    exact Steps.nil none
  | cons q rest ih =>
    intro p h
    obtain ⟨g, tests⟩ := q
    cases tests with
    | nil => exact ih h
    | cons t0 ts =>
      by_cases hsk : skipCheck t0 om = true
      · rw [runGroups_skip_shape hsk] at h ⊢
        simp only at h ⊢
        cases h2 : (runGroups om rest).2 with
        | error e2 =>
          rw [h2] at h
          simp [Except.map] at h
        | ok p2 => exact ih h2
      · have hsk' : skipCheck t0 om = false := by simpa using hsk
        cases h1 : (runTests g 0 (t0 :: ts)).2 with
        | error e1 =>
          rw [runGroups_exec_err_shape hsk' h1] at h
          simp only at h
          cases h
        | ok n1 =>
          rw [runGroups_exec_shape hsk' h1] at h ⊢
          simp only at h ⊢
          cases h2 : (runGroups om rest).2 with
          | error e2 =>
            rw [h2] at h
            simp [Except.map] at h
          | ok p2 =>
            exact Steps.out _ _ _ _
              (steps_append (runTests_ok_steps h1) (ih h2))

theorem run_ok_steps {reg : Registry} {res : Nat × Nat × Nat}
    (h : (Runner.run reg).2 = Except.ok res) :
    Steps none (Runner.run reg).1 none := by
  cases hg : (runGroups reg.only_mode reg.groups).2 with
  | error e =>
    simp only [Runner.run, hg] at h
    cases h
  | ok p =>
    obtain ⟨nf, ns⟩ := p
    have htr : (Runner.run reg).1 = (runGroups reg.only_mode reg.groups).1
        ++ [Ev.out (OutLine.summary (nf == 0) ns)] := by
      simp only [Runner.run, hg]
    rw [htr]
    exact steps_append (runGroups_ok_steps hg)
      (Steps.out _ _ _ _ (Steps.nil none))

theorem curFrom_cons (c : Option TestId) (e : Ev) (evs : List Ev) :
    curFrom c (e :: evs) = curFrom (curStep c e) evs := rfl

theorem curStep_of_callId {e : Ev} {id : TestId} (c : Option TestId)
    (hce : e.callId = some id) : curStep c e = c := by
  cases e with
  | curSet v => simp [Ev.callId] at hce
  | out l => rfl
  | beforeCall j => rfl
  | bodyCall j => rfl
  | afterCall j => rfl

theorem steps_curFrom {c c' : Option TestId} {evs : List Ev}
    (h : Steps c evs c') : curFrom c evs = c' := by
  induction h with
  | nil d => rfl
  | out d d' l t ht ih => exact ih
  | call id d' e t hce ht ih =>
    rw [curFrom_cons, curStep_of_callId _ hce]
    exact ih
  | set id d' t ht ih => exact ih
  | clear id d' t ht ih => exact ih

theorem steps_split_call {c c' : Option TestId} {evs : List Ev}
    (h : Steps c evs c') :
    ∀ {xs : List Ev} {e : Ev} {ys : List Ev} {id : TestId},
      evs = xs ++ e :: ys → e.callId = some id → curFrom c xs = some id := by
  induction h with
  | nil d =>
    intro xs e ys id heq
    cases xs <;> simp at heq
  | out d d' l t ht ih =>
    intro xs e ys id heq hce
    cases xs with
    | nil =>
      simp only [List.nil_append, List.cons.injEq] at heq
      rw [← heq.1] at hce
      simp [Ev.callId] at hce
    | cons x xs' =>
      simp only [List.cons_append, List.cons.injEq] at heq
      obtain ⟨rfl, heq'⟩ := heq
      rw [curFrom_cons]
      exact ih heq' hce
  | call id0 d' e0 t hce0 ht ih =>
    intro xs e ys id heq hce
    cases xs with
    | nil =>
      simp only [List.nil_append, List.cons.injEq] at heq
      rw [← heq.1] at hce
      rw [hce0] at hce
      exact hce
    | cons x xs' =>
      simp only [List.cons_append, List.cons.injEq] at heq
      obtain ⟨rfl, heq'⟩ := heq
      rw [curFrom_cons, curStep_of_callId _ hce0]
      exact ih heq' hce
  | set id0 d' t ht ih =>
    intro xs e ys id heq hce
    cases xs with
    | nil =>
      simp only [List.nil_append, List.cons.injEq] at heq
      rw [← heq.1] at hce
      simp [Ev.callId] at hce
    | cons x xs' =>
      simp only [List.cons_append, List.cons.injEq] at heq
      obtain ⟨rfl, heq'⟩ := heq
      rw [curFrom_cons]
      exact ih heq' hce
  | clear id0 d' t ht ih =>
    intro xs e ys id heq hce
    cases xs with
    | nil =>
      simp only [List.nil_append, List.cons.injEq] at heq
      rw [← heq.1] at hce
      simp [Ev.callId] at hce
    | cons x xs' =>
      simp only [List.cons_append, List.cons.injEq] at heq
      obtain ⟨rfl, heq'⟩ := heq
      rw [curFrom_cons]
      exact ih heq' hce

theorem steps_split_set {c c' : Option TestId} {evs : List Ev}
    (h : Steps c evs c') :
    ∀ {xs : List Ev} {v : TestId} {ys : List Ev},
      evs = xs ++ Ev.curSet (some v) :: ys → curFrom c xs = none := by
  induction h with
  | nil d =>
    intro xs v ys heq
    cases xs <;> simp at heq
  | out d d' l t ht ih =>
    intro xs v ys heq
    cases xs with
    | nil => simp at heq
    | cons x xs' =>
      simp only [List.cons_append, List.cons.injEq] at heq
      obtain ⟨rfl, heq'⟩ := heq
      rw [curFrom_cons]
      exact ih heq'
  | call id0 d' e0 t hce0 ht ih =>
    intro xs v ys heq
    cases xs with
    | nil =>
      simp only [List.nil_append, List.cons.injEq] at heq
      rw [heq.1] at hce0
      simp [Ev.callId] at hce0
    | cons x xs' =>
      simp only [List.cons_append, List.cons.injEq] at heq
      obtain ⟨rfl, heq'⟩ := heq
      rw [curFrom_cons, curStep_of_callId _ hce0]
      exact ih heq'
  | set id0 d' t ht ih =>
    intro xs v ys heq
    cases xs with
    | nil => rfl
    | cons x xs' =>
      simp only [List.cons_append, List.cons.injEq] at heq
      obtain ⟨rfl, heq'⟩ := heq
      rw [curFrom_cons]
      exact ih heq'
  | clear id0 d' t ht ih =>
    intro xs v ys heq
    cases xs with
    | nil => simp at heq
    | cons x xs' =>
      simp only [List.cons_append, List.cons.injEq] at heq
      obtain ⟨rfl, heq'⟩ := heq
      rw [curFrom_cons]
      exact ih heq'

/-! ## The claims -/

/-- Claim C1: whenever `Runner::run` returns (no exception escaped a
test body), its exit status is `0` if and only if the run-level fail
tally is `0`, and that tally counts exactly one per executed test whose
final failure counter is nonzero (`totalFails` sums, over the groups
that run, `1` for each test with `finalFailed ≠ 0` — however many of
its individual assertions failed); this holds for every registry, i.e.
for any combination of passing, failing and skipped tests. -/
theorem C1_exit_status (reg : Registry) (nf ns st : Nat)
    (h : (Runner.run reg).2 = Except.ok (nf, ns, st)) :
    (st = 0 ↔ nf = 0) ∧ nf = totalFails reg := by
  cases hg : (runGroups reg.only_mode reg.groups).2 with
  | error e =>
    simp only [Runner.run, hg] at h
    cases h
  | ok p =>
    obtain ⟨nf', ns'⟩ := p
    simp only [Runner.run, hg, Except.ok.injEq, Prod.mk.injEq] at h
    obtain ⟨h1, h2, h3⟩ := h
    subst h1
    subst h2
    refine ⟨?_, (runGroups_ok_tallies hg).1⟩
    by_cases hz : nf' = 0 <;> simp [hz, ← h3]

/-- Witness for C1: the sample registry with one failing and one
passing test returns fail tally `1` and exit status `1`. -/
theorem C1_witness :
    (Runner.run regSample).2 = Except.ok (1, 0, 1) ∧
    ((1 : Nat) = 0 ↔ (1 : Nat) = 0) ∧ 1 = totalFails regSample :=
  ⟨by decide, C1_exit_status regSample 1 0 1 (by decide)⟩

/-- Claim C2, counterexample: in `regOnlyA` (groups `"a"` with an
only-sentinel and `"b"` with one real test and no sentinel, only-mode
active) group `"b"` is skipped — its first entry is a real test, not
the only-sentinel, and only-mode is on — and it holds exactly one real
test, yet the run reports a skip tally of `0`, not `1`: the code adds
`tests.size() - 1` (assuming one sentinel at the front), so a group
skipped by only-mode without a sentinel has one fewer test counted
toward the skip total than the claim states. -/
theorem C2_counterexample :
    regOnlyA.groups.get? 1 = some ("b", [Entry.test tdPassing]) ∧
    regOnlyA.only_mode = true ∧
    skipCheck (Entry.test tdPassing) true = true ∧
    countTests [Entry.test tdPassing] = 1 ∧
    (Runner.run regOnlyA).2 = Except.ok (0, 0, 0) ∧
    (0 : Nat) ≠ 1 :=
  ⟨rfl, rfl, rfl, rfl, by decide, by decide⟩

/-- Claim C2, amended: for every group the Runner skips (first entry is
the skip-sentinel, or the first entry is not the only-sentinel while
only-mode is active — equivalently `groupRuns` is false), no
before/after hook and no test body from that group is invoked, and the
group contributes its sequence length minus one to the skip total
(which equals its real-test count exactly when the group carries
exactly one sentinel); the run-level skip tally is the sum of those
contributions. -/
theorem C2_skipped_group (reg : Registry) (g : Str) (tests : List Entry)
    (hdist : KeysDistinct reg.groups)
    (hmem : (g, tests) ∈ reg.groups)
    (hskip : groupRuns reg.only_mode tests = false) :
    (∀ ev ∈ (Runner.run reg).1, ∀ i, ev.callId ≠ some (g, i)) ∧
    skipContribution reg.only_mode (g, tests) = tests.length - 1 ∧
    (∀ nf ns st, (Runner.run reg).2 = Except.ok (nf, ns, st) →
      ns = totalSkips reg) := by
  refine ⟨skipped_group_no_calls hdist hmem hskip, ?_, ?_⟩
  · cases tests with
    | nil => rfl
    | cons t0 ts =>
      have hsk : skipCheck t0 reg.only_mode = true := by
        simpa [groupRuns] using hskip
      simp [skipContribution, hsk]
  · intro nf ns st h
    cases hg : (runGroups reg.only_mode reg.groups).2 with
    | error e =>
      simp only [Runner.run, hg] at h
      cases h
    | ok p =>
      obtain ⟨nf', ns'⟩ := p
      simp only [Runner.run, hg, Except.ok.injEq, Prod.mk.injEq] at h
      obtain ⟨h1, h2, h3⟩ := h
      subst h2
      exact (runGroups_ok_tallies hg).2

/-- Witness for C2's amended theorem, at the counterexample registry
and its only-mode-skipped group `"b"`. -/
theorem C2_witness :
    (∀ ev ∈ (Runner.run regOnlyA).1, ∀ i, ev.callId ≠ some ("b", i)) ∧
    skipContribution regOnlyA.only_mode ("b", [Entry.test tdPassing])
      = [Entry.test tdPassing].length - 1 ∧
    (∀ nf ns st, (Runner.run regOnlyA).2 = Except.ok (nf, ns, st) →
      ns = totalSkips regOnlyA) :=
  C2_skipped_group regOnlyA "b" [Entry.test tdPassing]
    (by unfold KeysDistinct; decide)
    (List.mem_cons_of_mem _ (List.mem_cons_self _ _))
    rfl

/-- Claim C3, counterexample: on the registry built by `add("g", …)`,
then `skip("g")`, then `only("g")` — both directives called, skip
first — the group's vector is `[&Flag::only, &Flag::skip, test]`
(each call prepends), so `tests[0]` is the only-sentinel, the group is
NOT skipped, and its test's body runs: `bodyCall ("g", 2)` is in the
run's trace, refuting "the per-group skip marker takes precedence …
in either order: the group is skipped entirely". -/
theorem C3_counterexample :
    regSkipThenOnly
      = applyOps [Op.add "g" tdPassing, Op.skip "g", Op.only "g"] ∧
    Ev.bodyCall ("g", 2) ∈ (Runner.run regSkipThenOnly).1 :=
  ⟨rfl, by decide⟩

/-- Claim C3, amended: when both `skip(g)` and `only(g)` have been
called before the run, the most recent directive governs, because each
call prepends its sentinel and `run()` inspects only `tests[0]`:
if `skip(g)` came last (first conjunct, `skip` applied after `only`),
the group is skipped — no hook or body from it is invoked; if `only(g)`
came last (second conjunct), the group is not skipped — in a run that
returns, every real test of the group has its body invoked (the
sentinels buried in the vector are inert, having null `run` pointers). -/
theorem C3_last_directive_governs (reg : Registry) (g : Str)
    (hsort : SortedKeys reg.groups) :
    (∀ ev ∈ (Runner.run (Runner.skip (Runner.only reg g) g)).1,
        ∀ i, ev.callId ≠ some (g, i)) ∧
    (∀ v, (g, v) ∈ (Runner.only (Runner.skip reg g) g).groups →
      ∀ i td, v.get? i = some (Entry.test td) →
      ∀ res, (Runner.run (Runner.only (Runner.skip reg g) g)).2
          = Except.ok res →
      Ev.bodyCall (g, i) ∈ (Runner.run (Runner.only (Runner.skip reg g) g)).1) := by
  constructor
  · have hs1 : SortedKeys (Runner.only reg g).groups :=
      upsert_sorted hsort g _
    have hs2 : SortedKeys (Runner.skip (Runner.only reg g) g).groups :=
      upsert_sorted hs1 g _
    obtain ⟨v, hv⟩ :=
      upsert_self_mem g (fun w => Entry.skipFlag :: w) (Runner.only reg g).groups
    exact skipped_group_no_calls (sortedKeys_distinct hs2) hv rfl
  · intro v hvmem i td hj res hok
    have hs1 : SortedKeys (Runner.skip reg g).groups :=
      upsert_sorted hsort g _
    have hs2 : SortedKeys (Runner.only (Runner.skip reg g) g).groups :=
      upsert_sorted hs1 g _
    obtain ⟨w, hw⟩ :=
      upsert_self_mem g (fun u => Entry.onlyFlag :: u) (Runner.skip reg g).groups
    have hveq : v = Entry.onlyFlag :: w :=
      keys_unique (sortedKeys_distinct hs2) hvmem hw
    subst hveq
    have hruns : groupRuns (Runner.only (Runner.skip reg g) g).only_mode
        (Entry.onlyFlag :: w) = true := rfl
    obtain ⟨xs, ys, zs, ws, htr⟩ := run_executes_test hok hvmem hruns hj
    rw [htr]
    simp

/-- Witness for C3's amended theorem on the one-test group `"g"`:
`skip` after `only` silences the group, `only` after `skip`
(the `regSkipThenOnly` registry) runs its test. -/
theorem C3_witness :
    (∀ ev ∈ (Runner.run (Runner.skip (Runner.only regG "g") "g")).1,
        ∀ i, ev.callId ≠ some ("g", i)) ∧
    (∀ v, ("g", v) ∈ (Runner.only (Runner.skip regG "g") "g").groups →
      ∀ i td, v.get? i = some (Entry.test td) →
      ∀ res, (Runner.run (Runner.only (Runner.skip regG "g") "g")).2
          = Except.ok res →
      Ev.bodyCall ("g", i)
        ∈ (Runner.run (Runner.only (Runner.skip regG "g") "g")).1) :=
  C3_last_directive_governs regG "g"
    (show SortedKeys [("g", [Entry.test tdPassing])] from
      List.pairwise_singleton _ _)

/-- Claim C10: in any run in which no test body throws (the run
returns), the `Runner::current` pointer is `none` before `run()`
starts (`curAfter [] = none` by definition), points at exactly the
test being processed whenever one of its hooks or its body is invoked
(first conjunct: at every hook/body invocation event, the last write
to `current` was that test's address), is null between consecutive
tests (second conjunct: every write `current = t` happens while
`current` is null, i.e. after the previous test's reset), and is null
after `run()` returns (third conjunct); consequently a comparator
invoked at any point where `current` is null takes the fatal
no-current-test branch of `isFn` — a thrown error — rather than
touching any test record (fourth conjunct). -/
theorem C10_current_pointer (reg : Registry) (res : Nat × Nat × Nat)
    (h : (Runner.run reg).2 = Except.ok res) :
    (∀ xs e ys id, (Runner.run reg).1 = xs ++ e :: ys →
      e.callId = some id → curAfter xs = some id) ∧
    (∀ xs v ys, (Runner.run reg).1 = xs ++ Ev.curSet (some v) :: ys →
      curAfter xs = none) ∧
    curAfter (Runner.run reg).1 = none ∧
    (∀ (name compSym : Str) (comp : Int → Int → Bool) (f : Str) (l : Nat)
        (ls : Str) (lhs : Int) (rs : Str) (rhs : Int),
      ∃ msg, isFn name compSym comp true true toString toString
          f l ls lhs rs rhs none = Except.error msg) := by
  have st := run_ok_steps h
  refine ⟨?_, ?_, steps_curFrom st, ?_⟩
  · intro xs e ys id heq hce
    exact steps_split_call st heq hce
  · intro xs v ys heq
    exact steps_split_set st heq
  · intro name compSym comp f l ls lhs rs rhs
    exact ⟨_, rfl⟩

/-- Witness for C10 at the two-test sample registry. -/
theorem C10_witness :
    (∀ xs e ys id, (Runner.run regSample).1 = xs ++ e :: ys →
      e.callId = some id → curAfter xs = some id) ∧
    (∀ xs v ys, (Runner.run regSample).1 = xs ++ Ev.curSet (some v) :: ys →
      curAfter xs = none) ∧
    curAfter (Runner.run regSample).1 = none ∧
    (∀ (name compSym : Str) (comp : Int → Int → Bool) (f : Str) (l : Nat)
        (ls : Str) (lhs : Int) (rs : Str) (rhs : Int),
      ∃ msg, isFn name compSym comp true true toString toString
          f l ls lhs rs rhs none = Except.error msg) :=
  C10_current_pointer regSample (1, 0, 1) (by decide)

/-- Claim C4: whenever an executed test's body raises an uncaught
fault — any exception other than the comparator machinery's own
protocol errors (`BodyAct.fault`), and equally a comparator's thrown
protocol error, both caught by the `catch (...)` — the fault is
recorded against that test before propagating: at the moment the
exception escapes `run()` (the `.error` result), the test's failure
counter is nonzero, and the report stream already carries both its
`<file>:<line>: FAIL: Uncaught exception` line (attributed via the
test's own declaration site) and its `✗ <title>` outcome line. -/
theorem C4_fault_recorded (reg : Registry) (fl : Fault)
    (h : (Runner.run reg).2 = Except.error fl) :
    1 ≤ fl.test.failed ∧
    Ev.out (OutLine.failText fl.test.file fl.test.line "Uncaught exception\n")
      ∈ (Runner.run reg).1 ∧
    Ev.out (OutLine.markFail fl.test.title) ∈ (Runner.run reg).1 := by
  cases hg : (runGroups reg.only_mode reg.groups).2 with
  | ok p =>
    obtain ⟨nf, ns⟩ := p
    simp only [Runner.run, hg] at h
    cases h
  | error e =>
    simp only [Runner.run, hg] at h ⊢
    injection h with h
    subst h
    exact runGroups_error_rec hg

/-- Witness for C4: the registry whose single test throws `"boom"`
propagates a `Fault` carrying the test with `failed = 1`, after
emitting its FAIL line and its ✗ line. -/
theorem C4_witness :
    1 ≤ (Fault.mk "f" 0 ⟨"faulting", "t.cc", 9, 1, false⟩ "boom").test.failed ∧
    Ev.out (OutLine.failText
        (Fault.mk "f" 0 ⟨"faulting", "t.cc", 9, 1, false⟩ "boom").test.file
        (Fault.mk "f" 0 ⟨"faulting", "t.cc", 9, 1, false⟩ "boom").test.line
        "Uncaught exception\n") ∈ (Runner.run regFault).1 ∧
    Ev.out (OutLine.markFail
        (Fault.mk "f" 0 ⟨"faulting", "t.cc", 9, 1, false⟩ "boom").test.title)
      ∈ (Runner.run regFault).1 :=
  C4_fault_recorded regFault
    (Fault.mk "f" 0 ⟨"faulting", "t.cc", 9, 1, false⟩ "boom") (by decide)

/-- Claim C5, counterexample: in the registry whose single test's body
throws, the test is executed — `bodyCall ("f", 0)` is in the trace, and
the fault is caught (recorded as `"Uncaught exception"`, reflected in
the `.error` result) — yet `afterCall ("f", 0)` never appears: the
catch block re-throws before `t->after()` is reached, so `after()` does
NOT run after a caught fault, contrary to the claim's parenthetical. -/
theorem C5_counterexample :
    (Runner.run regFault).2
      = Except.error ⟨"f", 0, ⟨"faulting", "t.cc", 9, 1, false⟩, "boom"⟩ ∧
    Ev.bodyCall ("f", 0) ∈ (Runner.run regFault).1 ∧
    Ev.afterCall ("f", 0) ∉ (Runner.run regFault).1 :=
  ⟨by decide, by decide, by decide⟩

/-- Claim C5, amended: in every run that returns (no body threw), each
executed test's trace segment is ordered `before()`, then the body,
then `after()`: the run trace splits as
`xs ++ before ∷ (ys ++ body ∷ (zs ++ after ∷ ws))` for that test's
entry; when a body throws, `after()` is not invoked for that test (see
the counterexample). -/
theorem C5_hook_order (reg : Registry) (res : Nat × Nat × Nat)
    (h : (Runner.run reg).2 = Except.ok res)
    (g : Str) (tests : List Entry) (hmem : (g, tests) ∈ reg.groups)
    (hruns : groupRuns reg.only_mode tests = true)
    (i : Nat) (td : TestDef) (hj : tests.get? i = some (Entry.test td)) :
    ∃ xs ys zs ws, (Runner.run reg).1 =
      xs ++ Ev.beforeCall (g, i) ::
        (ys ++ Ev.bodyCall (g, i) :: (zs ++ Ev.afterCall (g, i) :: ws)) :=
  run_executes_test h hmem hruns hj

/-- Witness for C5's amended theorem: the failing-but-not-throwing test
of `regSample` runs `before`, body, `after` in order. -/
theorem C5_witness :
    ∃ xs ys zs ws, (Runner.run regSample).1 =
      xs ++ Ev.beforeCall ("a", 0) ::
        (ys ++ Ev.bodyCall ("a", 0) :: (zs ++ Ev.afterCall ("a", 0) :: ws)) :=
  C5_hook_order regSample (1, 0, 1) (by decide) "a" [Entry.test tdFailing]
    (show ("a", [Entry.test tdFailing])
        ∈ [("a", [Entry.test tdFailing]), ("b", [Entry.test tdPassing])] from
      List.mem_cons_self _ _)
    rfl 0 tdFailing rfl

/-- Claim C6: invoking any of the six comparator functions (all of
which are instances of `isFn`) while `Runner::current` is null, or
while the current test is already marked `done`, throws (an `.error`,
i.e. a thrown `const char*`) rather than returning: no `FAIL` line is
written and no failure counter is incremented (an `.error` result
carries no updated record and no output, unlike the `.ok` result of an
ordinary assertion failure). -/
theorem C6_protocol_violation_throws {L R : Type}
    (name compSym : Str) (comp : R → L → Bool) (pL pR : Bool)
    (showL : L → Str) (showR : R → Str) (f : Str) (l : Nat)
    (lhsStr : Str) (lhs : L) (rhsStr : Str) (rhs : R)
    (current : Option TestCase)
    (h : current = none ∨ ∃ t, current = some t ∧ t.done = true) :
    ∃ msg, isFn name compSym comp pL pR showL showR
        f l lhsStr lhs rhsStr rhs current = Except.error msg := by
  rcases h with h | ⟨t, hc, hd⟩
  · exact ⟨_, by rw [h]; rfl⟩
  · refine ⟨"Called is_" ++ name ++ " in finished test", ?_⟩
    rw [hc]
    simp [isFn, hd]

/-- Witness for C6: `is_gt_` (which is `isFn "gt" ">" …`) with a null
current pointer throws. -/
theorem C6_witness :
    ((none : Option TestCase) = none ∨
      ∃ t, (none : Option TestCase) = some t ∧ t.done = true) ∧
    ∃ msg, isFn "gt" ">" (fun (r l : Int) => decide (r > l)) true true
        toString toString "f.cc" 3 "3" 3 "4" 4 (none : Option TestCase)
        = Except.error msg :=
  ⟨Or.inl rfl,
   C6_protocol_violation_throws "gt" ">" (fun (r l : Int) => decide (r > l))
     true true toString toString "f.cc" 3 "3" 3 "4" 4 none (Or.inl rfl)⟩

/-- Claim C7: `is_gt(3, 4)` — i.e. `is_gt_` with expected expression
`"3"`, expected value `3`, actual expression `"4"`, actual value `4` —
evaluates `actual > expected`, returns `true`, writes nothing and
changes no state; `is_gt(4, 3)` returns `false`, increments the current
test's failure counter from `0` to exactly `1`, and emits exactly one
`FAIL` line referencing both captured source expressions (`"3"` and
`"4"`, rendered `3 > 4`). -/
theorem C7_is_gt_3_4 (t : TestCase) (f : Str) (l : Nat)
    (h0 : t.failed = 0) (hd : t.done = false) :
    is_gt_ f l "3" 3 "4" 4 (some t) = Except.ok (t, true, []) ∧
    is_gt_ f l "4" 4 "3" 3 (some t) =
      Except.ok ({ t with failed := 1 }, false,
        [OutLine.markFail t.title, OutLine.failText f l "3 > 4  (3 > 4)\n"]) := by
  obtain ⟨tt, tf, tl, fl, dn⟩ := t
  simp only at h0 hd
  subst h0 hd
  exact ⟨rfl, rfl⟩

/-- Witness for C7 at a concrete test record. -/
theorem C7_witness :
    is_gt_ "f.cc" 9 "3" 3 "4" 4 (some ⟨"T", "f.cc", 8, 0, false⟩)
      = Except.ok (⟨"T", "f.cc", 8, 0, false⟩, true, []) ∧
    is_gt_ "f.cc" 9 "4" 4 "3" 3 (some ⟨"T", "f.cc", 8, 0, false⟩)
      = Except.ok (⟨"T", "f.cc", 8, 1, false⟩, false,
          [OutLine.markFail "T", OutLine.failText "f.cc" 9 "3 > 4  (3 > 4)\n"]) :=
  C7_is_gt_3_4 ⟨"T", "f.cc", 8, 0, false⟩ "f.cc" 9 rfl rfl

/-- Claim C8, counterexample: with an expected-value type that is not
renderable (`printableL = false`) and a renderable actual-value type
(`printableR = true`, here `Int`), a failing comparator emits its single
`FAIL` line with NO parenthesised actual value — the emitted body
`"a > e\n"` contains no parenthesis at all — although the claim demands
one whenever the actual-value type is renderable, "independently of
whether the expected-value type is renderable". -/
theorem C8_counterexample :
    isFn "gt" ">" (fun (_ : Int) (_ : Unit) => false) false true
        (fun _ => "()") toString "f.cc" 3 "e" () "a" (7 : Int)
        (some ⟨"T", "f.cc", 2, 0, false⟩)
      = Except.ok (⟨"T", "f.cc", 2, 1, false⟩, false,
          [OutLine.markFail "T", OutLine.failText "f.cc" 3 "a > e\n"]) ∧
    ¬ ('(' ∈ ("a > e\n").toList) := by
  exact ⟨rfl, by decide⟩

/-- Claim C8, amended: for every failing comparator assertion made
against a live current test, the single emitted `FAIL` line carries the
call-site file and line and the two captured source expressions
(`<rhs-expr> <op> <lhs-expr>`), and the actual and expected values are
appended in parentheses if and only if BOTH value types support textual
rendering (`if constexpr (Printable<LHS> && Printable<RHS>)`). -/
theorem C8_fail_line_format {L R : Type}
    (name compSym : Str) (comp : R → L → Bool) (pL pR : Bool)
    (showL : L → Str) (showR : R → Str) (f : Str) (l : Nat)
    (lhsStr : Str) (lhs : L) (rhsStr : Str) (rhs : R) (t : TestCase)
    (hd : t.done = false) (hc : comp rhs lhs = false) :
    ∃ b, isFn name compSym comp pL pR showL showR
        f l lhsStr lhs rhsStr rhs (some t)
      = Except.ok ({ t with failed := t.failed + 1 }, false,
          ({ t with failed := t.failed + 1 } : TestCase).output
            ++ [OutLine.failText f l b]) ∧
      ((pL && pR) = true →
        b = rhsStr ++ " " ++ compSym ++ " " ++ lhsStr
          ++ ("  (" ++ showR rhs ++ " " ++ compSym ++ " " ++ showL lhs ++ ")")
          ++ "\n") ∧
      ((pL && pR) = false →
        b = rhsStr ++ " " ++ compSym ++ " " ++ lhsStr ++ "\n") := by
  refine ⟨(rhsStr ++ " " ++ compSym ++ " " ++ lhsStr)
      ++ (if pL && pR then
            "  (" ++ showR rhs ++ " " ++ compSym ++ " " ++ showL lhs ++ ")"
          else "") ++ "\n", ?_, ?_, ?_⟩
  · simp [isFn, hd, hc, TestCase.fail]
  · intro hp; rw [hp]; simp
  · intro hp; rw [hp]; simp

/-- Witness for C8's amended theorem: `is_eq(1, 2)` at `Int` (both
sides printable) inside a live test. -/
theorem C8_witness :
    (⟨"T", "f.cc", 2, 0, false⟩ : TestCase).done = false ∧
    (fun (r l : Int) => decide (r = l)) 2 1 = false ∧
    ∃ b, isFn "eq" "==" (fun (r l : Int) => decide (r = l)) true true
        toString toString "f.cc" 3 "1" 1 "2" 2
        (some (⟨"T", "f.cc", 2, 0, false⟩ : TestCase))
      = Except.ok ({ (⟨"T", "f.cc", 2, 0, false⟩ : TestCase) with failed := 0 + 1 },
          false,
          ({ (⟨"T", "f.cc", 2, 0, false⟩ : TestCase) with
              failed := 0 + 1 } : TestCase).output
            ++ [OutLine.failText "f.cc" 3 b]) ∧
      ((true && true) = true →
        b = "2" ++ " " ++ "==" ++ " " ++ "1"
          ++ ("  (" ++ toString (2 : Int) ++ " " ++ "=="
              ++ " " ++ toString (1 : Int) ++ ")") ++ "\n") ∧
      ((true && true) = false →
        b = "2" ++ " " ++ "==" ++ " " ++ "1" ++ "\n") :=
  ⟨rfl, by decide,
   C8_fail_line_format "eq" "==" (fun (r l : Int) => decide (r = l)) true true
     toString toString "f.cc" 3 "1" 1 "2" 2 ⟨"T", "f.cc", 2, 0, false⟩
     rfl (by decide)⟩

/-- Claim C9: starting from the empty registry, any sequence of
registration calls (`Runner::add` appends one record; `Runner::skip` /
`Runner::only` prepend one sentinel, creating the group if absent, and
nothing ever removes an element) leaves every group in the map with a
non-empty vector, so the unchecked `tests[0]` access in `Runner::run`
is always in bounds. -/
theorem C9_groups_nonempty (ops : List Op) (g : Str) (es : List Entry)
    (h : (g, es) ∈ (applyOps ops).groups) : es ≠ [] :=
  groupsNonempty_applyOps ops (g, es) h

/-- Witness for C9: after a single `skip("g")` call the group `"g"`
holds exactly the sentinel, and the theorem applies. -/
theorem C9_witness :
    ("g", [Entry.skipFlag]) ∈ (applyOps [Op.skip "g"]).groups ∧
    [Entry.skipFlag] ≠ ([] : List Entry) :=
  ⟨show ("g", [Entry.skipFlag]) ∈ [("g", [Entry.skipFlag])] from
     List.mem_cons_self _ _,
   C9_groups_nonempty [Op.skip "g"] "g" [Entry.skipFlag]
     (show ("g", [Entry.skipFlag]) ∈ [("g", [Entry.skipFlag])] from
       List.mem_cons_self _ _)⟩

end Zest
